import Mathlib

/-!
# Branch prediction simulator (`sim_bp.cc`)

A shallow embedding of `sim_bp.cc`: the three index functions, the saturating
counter tables, the global history register, the hybrid chooser, and the
argument dispatch, the set-up and the per-record loop of `main`.

Conventions of the embedding.

* The file-scope globals of the program are the fields of one record `Sim`,
  threaded through every function that reads or writes them.
* A value of type `int` is an `Int`, a value of an unsigned type is a `Nat`.
  Conversions between the integer types are written out (`toInt`, `toUInt`,
  `toULong`), and so is the range check of signed arithmetic (`checkInt`).
* An operation without defined behaviour (signed overflow, a shift count
  outside `[0, 32)`, a vector access outside the vector) yields `none`; so does
  a start-up that ends in an exception.  Every function is total and
  computable.
-/

namespace SimBP

/-! ## Machine integers -/

/-- Smallest value of type `int` (32 bits, two's complement). -/
def INT_MIN : Int := -2147483648

/-- Largest value of type `int`. -/
def INT_MAX : Int := 2147483647

/-- Result of an arithmetic operation on `int`: a mathematical result outside
the range of the type is a signed overflow, which has no defined behaviour. -/
def checkInt (x : Int) : Option Int :=
  if INT_MIN ≤ x ∧ x ≤ INT_MAX then some x else none

/-- Conversion of an integer value to `int`: reduction modulo 2^32 into the
signed range. -/
def toInt (x : Int) : Int := (x + 2147483648) % 4294967296 - 2147483648

/-- Conversion of an integer value to `unsigned int`: reduction modulo 2^32. -/
def toUInt (x : Int) : Nat := (x % 4294967296).toNat

/-- Conversion of an integer value to `unsigned long` (64 bits): reduction
modulo 2^64; a negative `int` is sign-extended by it. -/
def toULong (x : Int) : Nat := (x % 18446744073709551616).toNat

/-- The operation `a << s` on `int`.  The shift count must lie in `[0, 32)`;
the value is `a * 2^s` converted to `int` (so `1 << 31` is `INT_MIN`). -/
def shlInt (a s : Int) : Option Int :=
  if 0 ≤ s ∧ s < 32 then some (toInt (a * 2 ^ s.toNat)) else none

/-- The operation `a >> s` on `int`: an arithmetic shift, the shift count must
lie in `[0, 32)`. -/
def shrInt (a s : Int) : Option Int :=
  if 0 ≤ s ∧ s < 32 then some (a / 2 ^ s.toNat) else none

/-- The operation `a << s` on `unsigned int`: the shift count must lie in
`[0, 32)`, the value is reduced modulo 2^32. -/
def shlUInt (a : Nat) (s : Int) : Option Nat :=
  if 0 ≤ s ∧ s < 32 then some ((a <<< s.toNat) % 4294967296) else none

/-- The operation `a & b` on `int`, bit by bit on the two's complement
patterns. -/
def andInt (a b : Int) : Int := toInt ((toUInt a &&& toUInt b : Nat) : Int)

/-- The operation `a | b` on `int`, bit by bit on the two's complement
patterns. -/
def orInt (a b : Int) : Int := toInt ((toUInt a ||| toUInt b : Nat) : Int)

/-! ## Vectors of counters -/

/-- The read `table[index]` of a `std::vector<int>` at an `int` index; an
index outside the vector has no defined behaviour. -/
def readAt (table : List Int) (index : Int) : Option Int :=
  if 0 ≤ index then table[index.toNat]? else none

/-- The write `table[index] = v`; an index outside the vector has no defined
behaviour. -/
def writeAt (table : List Int) (index : Int) (v : Int) : Option (List Int) :=
  if 0 ≤ index ∧ index.toNat < table.length then some (table.set index.toNat v) else none

/-- The construction `std::vector<int>(num, v)` with `num` of type `int`: the
count is converted to the unsigned size type, so a negative count asks for
more elements than a vector can hold and the construction throws. -/
def mkTable (num : Int) (v : Int) : Option (List Int) :=
  if 0 ≤ num then some (List.replicate num.toNat v) else none

/-! ## Program state -/

/-- The globals of `sim_bp.cc` (lines 8 to 15). -/
structure Sim where
  bimodalTable : List Int
  gshareTable : List Int
  chooserTable : List Int
  numBimodalEntries : Int
  numGshareEntries : Int
  numChooserEntries : Int
  predictions : Int
  mispredictions : Int
  globalHistoryRegister : Nat
  m1 : Int
  n : Int
  m2 : Int
  k : Int
  isBimodal : Bool
  isGshare : Bool
  isHybrid : Bool
deriving DecidableEq, Repr

/-- The values the globals have when `main` starts: empty vectors, zero
counters and parameters, all mode flags false. -/
def globals0 : Sim :=
  { bimodalTable := [], gshareTable := [], chooserTable := [],
    numBimodalEntries := 0, numGshareEntries := 0, numChooserEntries := 0,
    predictions := 0, mispredictions := 0, globalHistoryRegister := 0,
    m1 := 0, n := 0, m2 := 0, k := 0,
    isBimodal := false, isGshare := false, isHybrid := false }

/-! ## Index functions -/

/-- Embedding of `getBimodalIndex`:
`return (addr >> 2) & (numBimodalEntries - 1);`
The parameter is an `unsigned long`; the `int` mask is converted to
`unsigned long` for the conjunction and the result is converted to `int`. -/
def getBimodalIndex (s : Sim) (addr : Nat) : Option Int := do
  let mask ← checkInt (s.numBimodalEntries - 1)
  some (toInt ((((addr % 18446744073709551616) >>> 2) &&& toULong mask : Nat) : Int))

/-- Embedding of `getGshareIndex`, one binding per sub-expression of
lines 24 to 27. -/
def getGshareIndex (s : Sim) (addr : Nat) : Option Int := do
  -- int pcIndex = (addr >> 2) & ((1 << m1) - 1);
  let p ← shlInt 1 s.m1
  let mask ← checkInt (p - 1)
  let pcIndex := toInt ((((addr % 18446744073709551616) >>> 2) &&& toULong mask : Nat) : Int)
  -- int upperBitsOfPC = (pcIndex >> (m1 - n)) & ((1 << n) - 1);
  let d ← checkInt (s.m1 - s.n)
  let up ← shrInt pcIndex d
  let q ← shlInt 1 s.n
  let nmask ← checkInt (q - 1)
  let upperBitsOfPC := andInt up nmask
  -- int gshareIndex = (upperBitsOfPC ^ (globalHistoryRegister & ((1 << n) - 1))) << (m1 - n);
  let x := toUInt upperBitsOfPC ^^^ (s.globalHistoryRegister &&& toUInt nmask)
  let y ← shlUInt x d
  let gshareIndex := toInt (y : Int)
  -- gshareIndex |= (pcIndex & ((1 << (m1 - n)) - 1));
  let r ← shlInt 1 d
  let lmask ← checkInt (r - 1)
  some (orInt gshareIndex (andInt pcIndex lmask))

/-- Embedding of `getChooserIndex`: `return (addr >> 2) & ((1 << k) - 1);` -/
def getChooserIndex (s : Sim) (addr : Nat) : Option Int := do
  let p ← shlInt 1 s.k
  let mask ← checkInt (p - 1)
  some (toInt ((((addr % 18446744073709551616) >>> 2) &&& toULong mask : Nat) : Int))

/-! ## Predictions and updates -/

/-- Embedding of `makeBimodalPrediction`: `return bimodalTable[index] >= 2;` -/
def makeBimodalPrediction (s : Sim) (index : Int) : Option Bool := do
  let c ← readAt s.bimodalTable index
  some (decide (c ≥ 2))

/-- Embedding of `makeGsharePrediction`: `return gshareTable[index] >= 2;` -/
def makeGsharePrediction (s : Sim) (index : Int) : Option Bool := do
  let c ← readAt s.gshareTable index
  some (decide (c ≥ 2))

/-- Embedding of `updatePredictor`.  The increment is guarded by
`table[index] < 3` and the decrement by `table[index] > 0`, so neither can
leave the range of `int`. -/
def updatePredictor (table : List Int) (index : Int) (outcome : Bool) : Option (List Int) := do
  let c ← readAt table index
  if outcome then
    if c < 3 then writeAt table index (c + 1) else some table
  else
    if c > 0 then writeAt table index (c - 1) else some table

/-- Embedding of `updateGlobalHistoryRegister`:
`globalHistoryRegister = (globalHistoryRegister >> 1) | (outcome << (n - 1));`
The `bool` is promoted to `int`, shifted as an `int`, and converted to
`unsigned int` for the disjunction. -/
def updateGlobalHistoryRegister (s : Sim) (outcome : Bool) : Option Sim := do
  let d ← checkInt (s.n - 1)
  let b ← shlInt (if outcome then 1 else 0) d
  some { s with globalHistoryRegister := (s.globalHistoryRegister >>> 1) ||| toUInt b }

/-- Embedding of `updateChooser`. -/
def updateChooser (s : Sim) (chooserIndex : Int) (gshareCorrect bimodalCorrect : Bool) :
    Option Sim :=
  if gshareCorrect && !bimodalCorrect then do
    let c ← readAt s.chooserTable chooserIndex
    if c < 3 then do
      let t ← writeAt s.chooserTable chooserIndex (c + 1)
      some { s with chooserTable := t }
    else some s
  else if bimodalCorrect && !gshareCorrect then do
    let c ← readAt s.chooserTable chooserIndex
    if c > 0 then do
      let t ← writeAt s.chooserTable chooserIndex (c - 1)
      some { s with chooserTable := t }
    else some s
  else some s

/-! ## The run: set-up and per-record loop of `main` -/

/-- The statement `if (prediction != actualOutcome) mispredictions++;`. -/
def countMisprediction (s : Sim) (prediction actualOutcome : Bool) : Option Sim :=
  if prediction != actualOutcome then do
    let c ← checkInt (s.mispredictions + 1)
    some { s with mispredictions := c }
  else some s

/-- A trace record as the loop of `main` sees it: the address read with `%lx`
and `actualOutcome`, the flag `outcome == 't'`. -/
structure Record where
  addr : Nat
  actualOutcome : Bool
deriving DecidableEq, Repr

/-- The `isBimodal` branch of the loop body (lines 143 to 146). -/
def bimodalRecord (s : Sim) (addr : Nat) (actualOutcome : Bool) : Option Sim := do
  let bimodalIndex ← getBimodalIndex s addr
  let prediction ← makeBimodalPrediction s bimodalIndex
  let s ← countMisprediction s prediction actualOutcome
  let t ← updatePredictor s.bimodalTable bimodalIndex actualOutcome
  some { s with bimodalTable := t }

/-- The `isGshare` branch of the loop body (lines 150 to 154). -/
def gshareRecord (s : Sim) (addr : Nat) (actualOutcome : Bool) : Option Sim := do
  let gshareIndex ← getGshareIndex s addr
  let prediction ← makeGsharePrediction s gshareIndex
  let s ← countMisprediction s prediction actualOutcome
  let t ← updatePredictor s.gshareTable gshareIndex actualOutcome
  updateGlobalHistoryRegister { s with gshareTable := t } actualOutcome

/-- The `isHybrid` branch of the loop body (lines 158 to 171).  The chooser
counter is read at line 164 for the prediction and again at line 167 for the
choice of the table to update. -/
def hybridRecord (s : Sim) (addr : Nat) (actualOutcome : Bool) : Option Sim := do
  let bimodalIndex ← getBimodalIndex s addr
  let gshareIndex ← getGshareIndex s addr
  let chooserIndex ← getChooserIndex s addr
  let bimodalPrediction ← makeBimodalPrediction s bimodalIndex
  let gsharePrediction ← makeGsharePrediction s gshareIndex
  let c ← readAt s.chooserTable chooserIndex
  let prediction := if c ≥ 2 then gsharePrediction else bimodalPrediction
  let s ← countMisprediction s prediction actualOutcome
  let c ← readAt s.chooserTable chooserIndex
  let s ←
    if c ≥ 2 then do
      let t ← updatePredictor s.gshareTable gshareIndex actualOutcome
      some { s with gshareTable := t }
    else do
      let t ← updatePredictor s.bimodalTable bimodalIndex actualOutcome
      some { s with bimodalTable := t }
  let s ← updateGlobalHistoryRegister s actualOutcome
  updateChooser s chooserIndex (gsharePrediction == actualOutcome)
    (bimodalPrediction == actualOutcome)

/-- The body of the `while` loop of `main` for one record: the dispatch on the
mode flags, then `predictions++`. -/
def processRecord (s : Sim) (r : Record) : Option Sim :=
  (if s.isBimodal then bimodalRecord s r.addr r.actualOutcome
    else if s.isGshare then gshareRecord s r.addr r.actualOutcome
    else if s.isHybrid then hybridRecord s r.addr r.actualOutcome
    else some s).bind fun s1 =>
  (checkInt (s1.predictions + 1)).bind fun c =>
  some { s1 with predictions := c }

/-- The `while` loop of `main`: the records of the trace, in order. -/
def mainLoop (s : Sim) : List Record → Option Sim
  | [] => some s
  | r :: rest => (processRecord s r).bind fun s1 => mainLoop s1 rest

/-- The three argument shapes `main` accepts, with the values `strtoul`
returned for the numeric arguments (each an `unsigned long`). -/
inductive Config where
  | bimodal (m2 : Nat)
  | gshare (m1 n : Nat)
  | hybrid (k m1 n m2 : Nat)
deriving DecidableEq, Repr

/-- The set-up of `main` for an accepted argument shape (lines 77 to 119):
the parameters are stored as `int`, the table sizes are `1 << width`, the
tables are filled with their seed. -/
def mainSetup : Config → Option Sim
  | .bimodal a2 => do
    let s := { globals0 with isBimodal := true, m2 := toInt a2 }
    let nb ← shlInt 1 s.m2
    let bt ← mkTable nb 2
    some { s with numBimodalEntries := nb, bimodalTable := bt }
  | .gshare a1 an => do
    let s := { globals0 with isGshare := true, m1 := toInt a1, n := toInt an }
    let ng ← shlInt 1 s.m1
    let gt ← mkTable ng 2
    some { s with numGshareEntries := ng, gshareTable := gt, globalHistoryRegister := 0 }
  | .hybrid ak a1 an a2 => do
    let s := { globals0 with
      isHybrid := true, k := toInt ak, m1 := toInt a1, n := toInt an, m2 := toInt a2 }
    let nb ← shlInt 1 s.m2
    let ng ← shlInt 1 s.m1
    let nc ← shlInt 1 s.k
    let bt ← mkTable nb 2
    let gt ← mkTable ng 2
    let ct ← mkTable nc 1
    some { s with
      numBimodalEntries := nb, numGshareEntries := ng, numChooserEntries := nc,
      bimodalTable := bt, gshareTable := gt, chooserTable := ct,
      globalHistoryRegister := 0 }

/-- A whole run: set-up, then the loop over the trace. -/
def simulate (cfg : Config) (trace : List Record) : Option Sim :=
  (mainSetup cfg).bind fun s => mainLoop s trace

/-! ## Counters in range -/

/-- Every counter of a table is a two-bit saturating counter value. -/
def CountersInRange (table : List Int) : Prop := ∀ c ∈ table, 0 ≤ c ∧ c ≤ 3

/-- An `int` index that addresses an element of the table. -/
def InRange (table : List Int) (index : Int) : Prop :=
  0 ≤ index ∧ index.toNat < table.length

/-- A sequence of calls of `updateGlobalHistoryRegister`, one per outcome, in
the order of the list. -/
def updateHistoryAll (s : Sim) : List Bool → Option Sim
  | [] => some s
  | o :: rest => (updateGlobalHistoryRegister s o).bind fun s1 => updateHistoryAll s1 rest

/-- A state in hybrid mode with `k = 1`, `m1 = 2`, `n = 1`, `m2 = 1`, used to
evaluate the loop body on concrete records. -/
def hybridExample : Sim :=
  { globals0 with
    isHybrid := true, k := 1, m1 := 2, n := 1, m2 := 1,
    numBimodalEntries := 2, numGshareEntries := 4, numChooserEntries := 2,
    bimodalTable := [2, 1], gshareTable := [2, 2, 2, 2], chooserTable := [1, 2] }

/-- A state on which the hybrid branch of the loop body is defined: widths
`k`, `m2` at most 30 and `1 ≤ n ≤ m1 ≤ 30`, each table as long as its width
says, and both statistics counters below `INT_MAX`. -/
def HybridReady (s : Sim) (k m1 n m2 : Nat) : Prop :=
  s.k = (k : Int) ∧ s.m1 = (m1 : Int) ∧ s.n = (n : Int) ∧
  s.numBimodalEntries = ((2 ^ m2 : Nat) : Int) ∧
  k ≤ 30 ∧ 1 ≤ n ∧ n ≤ m1 ∧ m1 ≤ 30 ∧ m2 ≤ 30 ∧
  s.bimodalTable.length = 2 ^ m2 ∧ s.gshareTable.length = 2 ^ m1 ∧
  s.chooserTable.length = 2 ^ k ∧
  INT_MIN ≤ s.mispredictions ∧ s.mispredictions < INT_MAX ∧
  INT_MIN ≤ s.predictions ∧ s.predictions < INT_MAX

/-- The argument dispatch of `main` (the conditions of lines 77, 88 and 101
and the final `else` of line 120).  `argv` is the whole argument vector, its
length is `argc`; `strtoul` stands for the C library function of that name,
called with base 10.  The result `none` is the final `else`: the message
`Error: Unsupported branch predictor configuration` and
`exit(EXIT_FAILURE)`. -/
def parseArguments (strtoul : String → Nat) (argv : List String) : Option Config :=
  if argv.length = 4 ∧ argv[1]? = some "bimodal" then
    some (.bimodal (strtoul (argv.getD 2 "")))
  else if argv.length = 5 ∧ argv[1]? = some "gshare" then
    some (.gshare (strtoul (argv.getD 2 "")) (strtoul (argv.getD 3 "")))
  else if argv.length = 7 ∧ argv[1]? = some "hybrid" then
    some (.hybrid (strtoul (argv.getD 2 "")) (strtoul (argv.getD 3 ""))
      (strtoul (argv.getD 4 "")) (strtoul (argv.getD 5 "")))
  else none

/-- How `main` ends: with `exit(EXIT_FAILURE)` from the argument dispatch,
before any global is assigned, or after the set-up and the loop over the
trace (whose result is `none` when they have no defined behaviour). -/
inductive Exit where
  | failure
  | ran (final : Option Sim)
deriving DecidableEq

/-- The function `main` on an argument vector and the records of the trace
file.  The file is taken as opened and read: `trace` is the list of its
records, in order. -/
def mainRun (strtoul : String → Nat) (argv : List String) (trace : List Record) : Exit :=
  match parseArguments strtoul argv with
  | none => .failure
  | some cfg => .ran (simulate cfg trace)

/-- The value of a string of decimal digits, which is what `strtoul` with base
10 returns for such a string (below the range of `unsigned long`). -/
def decimalValue (s : String) : Nat :=
  s.data.foldl (fun acc c => 10 * acc + (c.toNat - 48)) 0

/-- Two states with the same parameters, table sizes, mode flags and table
lengths: everything the set-up fixes for the whole run. -/
def SameShape (s s1 : Sim) : Prop :=
  s1.m1 = s.m1 ∧ s1.n = s.n ∧ s1.m2 = s.m2 ∧ s1.k = s.k ∧
  s1.numBimodalEntries = s.numBimodalEntries ∧ s1.numGshareEntries = s.numGshareEntries ∧
  s1.numChooserEntries = s.numChooserEntries ∧
  s1.isBimodal = s.isBimodal ∧ s1.isGshare = s.isGshare ∧ s1.isHybrid = s.isHybrid ∧
  s1.bimodalTable.length = s.bimodalTable.length ∧
  s1.gshareTable.length = s.gshareTable.length ∧
  s1.chooserTable.length = s.chooserTable.length

/-- The bimodal table has `2^m2` entries, `m2 ≤ 30`, and `numBimodalEntries`
holds that size. -/
def BimodalShape (s : Sim) (m2 : Nat) : Prop :=
  m2 ≤ 30 ∧ s.m2 = (m2 : Int) ∧ s.numBimodalEntries = ((2 ^ m2 : Nat) : Int) ∧
  s.bimodalTable.length = 2 ^ m2

/-- The gshare table has `2^m1` entries, `m1 ≤ 30`, and the history width `n`
satisfies `1 ≤ n ≤ m1`. -/
def GshareShape (s : Sim) (m1 n : Nat) : Prop :=
  m1 ≤ 30 ∧ 1 ≤ n ∧ n ≤ m1 ∧ s.m1 = (m1 : Int) ∧ s.n = (n : Int) ∧
  s.gshareTable.length = 2 ^ m1

/-- The chooser table has `2^k` entries, `k ≤ 30`. -/
def ChooserShape (s : Sim) (k : Nat) : Prop :=
  k ≤ 30 ∧ s.k = (k : Int) ∧ s.chooserTable.length = 2 ^ k

/-- The shape of a state in one of the three modes: exactly the tables of the
mode have the shape their widths say. -/
def ModeShape (s : Sim) : Prop :=
  (s.isBimodal = true ∧ ∃ m2, BimodalShape s m2) ∨
  (s.isBimodal = false ∧ s.isGshare = true ∧ ∃ m1 n, GshareShape s m1 n) ∨
  (s.isBimodal = false ∧ s.isGshare = false ∧ s.isHybrid = true ∧
    ∃ k m1 n m2, BimodalShape s m2 ∧ GshareShape s m1 n ∧ ChooserShape s k)

/-- The statistics counters of a state that can be reached from the set-up:
`0 ≤ mispredictions ≤ predictions`. -/
def CountersOrdered (s : Sim) : Prop :=
  0 ≤ s.mispredictions ∧ s.mispredictions ≤ s.predictions

/-- The history width of the state fits the gshare index: `1 ≤ n ≤ m1`.  It is
asked of the modes that use the history register, not of bimodal mode. -/
def HistoryFits (s : Sim) : Prop :=
  s.isBimodal = true ∨ (1 ≤ s.n ∧ s.n ≤ s.m1)

/-- A configuration on which set-up and loop have defined behaviour: table
widths of at most 30 and, in the modes with a history register,
`1 ≤ n ≤ m1`. -/
def ValidConfig : Config → Prop
  | .bimodal m2 => m2 ≤ 30
  | .gshare m1 n => 1 ≤ n ∧ n ≤ m1 ∧ m1 ≤ 30
  | .hybrid k m1 n m2 => k ≤ 30 ∧ 1 ≤ n ∧ n ≤ m1 ∧ m1 ≤ 30 ∧ m2 ≤ 30

/-- Every counter of the table predicts taken. -/
def AllTaken (table : List Int) : Prop := ∀ c ∈ table, 2 ≤ c

/-- The state takes the `isBimodal` branch of the loop body. -/
def InBimodalMode (s : Sim) : Prop := s.isBimodal = true

/-- The state takes the `isGshare` branch of the loop body. -/
def InGshareMode (s : Sim) : Prop := s.isBimodal = false ∧ s.isGshare = true

/-- The state takes the `isHybrid` branch of the loop body. -/
def InHybridMode (s : Sim) : Prop :=
  s.isBimodal = false ∧ s.isGshare = false ∧ s.isHybrid = true

/-- A state in gshare mode with `m1 = 2`, `n = 2` and history register
`0b01`, used to evaluate the loop body on concrete records. -/
def gshareExample : Sim :=
  { globals0 with
    isGshare := true, m1 := 2, n := 2, numGshareEntries := 4,
    gshareTable := [2, 2, 1, 2], globalHistoryRegister := 1 }

/-- A state in bimodal mode with `m2 = 1`, used to evaluate the loop body on
concrete records. -/
def bimodalExample : Sim :=
  { globals0 with
    isBimodal := true, m2 := 1, numBimodalEntries := 2, bimodalTable := [2, 1] }

/-! ## Lemmas on vector reads and writes -/

theorem readAt_of_inRange (table : List Int) (index : Int) (h : InRange table index) :
    readAt table index = some (table.get ⟨index.toNat, h.2⟩) := by
  unfold readAt
  rw [if_pos h.1]
  exact List.getElem?_eq_getElem h.2

theorem readAt_mem {table : List Int} {index c : Int} (h : readAt table index = some c) :
    c ∈ table := by
  unfold readAt at h
  split at h
  · exact List.mem_iff_getElem?.mpr ⟨_, h⟩
  · cases h

theorem readAt_inRange {table : List Int} {index c : Int} (h : readAt table index = some c) :
    InRange table index := by
  unfold readAt at h
  split at h
  · rename_i h0
    refine ⟨h0, ?_⟩
    by_contra hlt
    rw [List.getElem?_eq_none (Nat.le_of_not_lt hlt)] at h
    cases h
  · cases h

theorem writeAt_of_inRange (table : List Int) (index v : Int) (h : InRange table index) :
    writeAt table index v = some (table.set index.toNat v) := by
  unfold writeAt
  exact if_pos h

theorem readAt_set_self (table : List Int) (index v : Int) (h : InRange table index) :
    readAt (table.set index.toNat v) index = some v := by
  unfold readAt
  rw [if_pos h.1, List.getElem?_set_self h.2]

theorem readAt_set_other (table : List Int) (index j v : Int) (h0 : 0 ≤ index)
    (hj : j ≠ index) : readAt (table.set index.toNat v) j = readAt table j := by
  unfold readAt
  by_cases hj0 : 0 ≤ j
  · rw [if_pos hj0, if_pos hj0]
    apply List.getElem?_set_ne
    intro heq
    apply hj
    omega
  · rw [if_neg hj0, if_neg hj0]

theorem countersInRange_set (table : List Int) (i : Nat) (v : Int)
    (ht : CountersInRange table) (hv : 0 ≤ v ∧ v ≤ 3) : CountersInRange (table.set i v) := by
  intro c hc
  rcases List.mem_or_eq_of_mem_set hc with h | h
  · exact ht c h
  · rw [h]; exact hv

/-- What `updatePredictor` returns at an index inside the table. -/
theorem updatePredictor_eq (table : List Int) (index : Int) (outcome : Bool) (old : Int)
    (hr : readAt table index = some old) :
    updatePredictor table index outcome = some
      (if outcome then (if old < 3 then table.set index.toNat (old + 1) else table)
       else (if old > 0 then table.set index.toNat (old - 1) else table)) := by
  have hin := readAt_inRange hr
  unfold updatePredictor
  rw [hr]
  simp only [Option.bind_eq_bind, Option.some_bind]
  cases outcome
  · by_cases h : old > 0
    · simp [h, writeAt_of_inRange table index _ hin]
    · simp [h]
  · by_cases h : old < 3
    · simp [h, writeAt_of_inRange table index _ hin]
    · simp [h]

theorem updatePredictor_countersInRange (table t : List Int) (index : Int) (outcome : Bool)
    (ht : CountersInRange table) (hu : updatePredictor table index outcome = some t) :
    CountersInRange t := by
  cases hr : readAt table index with
  | none =>
    unfold updatePredictor at hu
    rw [hr] at hu
    cases hu
  | some old =>
    have hold := ht old (readAt_mem hr)
    rw [updatePredictor_eq table index outcome old hr] at hu
    injection hu with hu
    subst hu
    cases outcome
    · by_cases h : old > 0
      · simp only [h, if_true]
        exact countersInRange_set _ _ _ ht ⟨by omega, by omega⟩
      · simpa [h] using ht
    · by_cases h : old < 3
      · simp only [h, if_true]
        exact countersInRange_set _ _ _ ht ⟨by omega, by omega⟩
      · simpa [h] using ht

/-! ## C1: `updatePredictor` is a saturating update of one entry -/

/-- C1. For a table whose counters lie in [0,3], an index inside the table and
any outcome, `updatePredictor` returns a table of the same length in which the
indexed entry is `min (old + 1) 3` when the outcome is taken and
`max (old - 1) 0` when it is not taken, and every other entry is unchanged. -/
theorem updatePredictor_spec (table : List Int) (index : Int) (outcome : Bool)
    (hc : CountersInRange table) (hi : InRange table index) :
    ∃ old t, readAt table index = some old ∧
      updatePredictor table index outcome = some t ∧
      t.length = table.length ∧
      readAt t index = some (if outcome then min (old + 1) 3 else max (old - 1) 0) ∧
      ∀ j : Int, j ≠ index → readAt t j = readAt table j := by
  have hr := readAt_of_inRange table index hi
  have hold := hc _ (readAt_mem hr)
  refine ⟨_, _, hr, updatePredictor_eq table index outcome _ hr, ?_, ?_, ?_⟩
  · cases outcome <;> simp only [Bool.false_eq_true, if_false, if_true] <;> split <;>
      simp [List.length_set]
  · cases outcome <;> simp only [Bool.false_eq_true, if_false, if_true] <;> split
    · rw [readAt_set_self table index _ hi]
      congr 1
      omega
    · rw [hr]
      congr 1
      omega
    · rw [readAt_set_self table index _ hi]
      congr 1
      omega
    · rw [hr]
      congr 1
      omega
  · intro j hj
    cases outcome <;> simp only [Bool.false_eq_true, if_false, if_true] <;> split <;>
      first
        | exact readAt_set_other table index j _ hi.1 hj
        | rfl

/-- C1 at the table `[2, 0, 3]`, index 2, outcome taken: the saturated entry
stays 3. -/
theorem updatePredictor_spec_witness :
    CountersInRange [2, 0, 3] ∧ InRange [2, 0, 3] 2 ∧
    ∃ old t, readAt [2, 0, 3] 2 = some old ∧
      updatePredictor [2, 0, 3] 2 true = some t ∧
      t.length = [2, 0, 3].length ∧
      readAt t 2 = some (if true then min (old + 1) 3 else max (old - 1) 0) ∧
      ∀ j : Int, j ≠ 2 → readAt t j = readAt [2, 0, 3] j :=
  have hc : CountersInRange [2, 0, 3] := by
    intro c h
    simp only [List.mem_cons, List.mem_singleton, List.not_mem_nil, or_false] at h
    rcases h with h | h | h
    · omega
    · omega
    · omega
  have hi : InRange [2, 0, 3] 2 := by
    constructor
    · decide
    · decide
  ⟨hc, hi, updatePredictor_spec [2, 0, 3] 2 true hc hi⟩

/-! ## C9: the two prediction functions -/

/-- C9. For every state and every index: when the index is inside the bimodal
table, `makeBimodalPrediction` returns a flag that is true exactly when the
counter at the index is at least 2, which for a counter in [0,3] means that it
is 2 or 3, whatever the rest of the state is; when the index is inside the
gshare table, `makeGsharePrediction` does the same on the gshare table.  Both
functions only read the state: they return the flag and nothing else. -/
theorem makePrediction_spec (s : Sim) (index : Int) :
    (InRange s.bimodalTable index →
      ∃ c p, readAt s.bimodalTable index = some c ∧
        makeBimodalPrediction s index = some p ∧
        (p = true ↔ 2 ≤ c) ∧ (0 ≤ c ∧ c ≤ 3 → (p = true ↔ c = 2 ∨ c = 3))) ∧
    (InRange s.gshareTable index →
      ∃ c p, readAt s.gshareTable index = some c ∧
        makeGsharePrediction s index = some p ∧
        (p = true ↔ 2 ≤ c) ∧ (0 ≤ c ∧ c ≤ 3 → (p = true ↔ c = 2 ∨ c = 3))) := by
  constructor
  · intro hb
    have hrb := readAt_of_inRange _ _ hb
    generalize s.bimodalTable.get ⟨index.toNat, hb.2⟩ = c at hrb
    refine ⟨c, decide (c ≥ 2), hrb, ?_, ?_, ?_⟩
    · unfold makeBimodalPrediction
      rw [hrb]
      rfl
    · simp
    · intro h
      rw [decide_eq_true_iff]
      omega
  · intro hg
    have hrg := readAt_of_inRange _ _ hg
    generalize s.gshareTable.get ⟨index.toNat, hg.2⟩ = c at hrg
    refine ⟨c, decide (c ≥ 2), hrg, ?_, ?_, ?_⟩
    · unfold makeGsharePrediction
      rw [hrg]
      rfl
    · simp
    · intro h
      rw [decide_eq_true_iff]
      omega

/-- C9 on a state of bimodal mode (bimodal table `[1, 2]`, no gshare table),
where the predictions at the indices 0 and 1 are not taken and taken, and on a
state of gshare mode (gshare table `[3, 0]`, no bimodal table), where they are
taken and not taken. -/
theorem makePrediction_spec_witness :
    makeBimodalPrediction { globals0 with isBimodal := true, bimodalTable := [1, 2] } 0
      = some false ∧
    makeBimodalPrediction { globals0 with isBimodal := true, bimodalTable := [1, 2] } 1
      = some true ∧
    makeGsharePrediction { globals0 with isGshare := true, gshareTable := [3, 0] } 0
      = some true ∧
    makeGsharePrediction { globals0 with isGshare := true, gshareTable := [3, 0] } 1
      = some false ∧
    InRange ({ globals0 with isBimodal := true, bimodalTable := [1, 2] } : Sim).bimodalTable 1 ∧
    InRange ({ globals0 with isGshare := true, gshareTable := [3, 0] } : Sim).gshareTable 1 ∧
    (∃ c p,
      readAt ({ globals0 with isBimodal := true, bimodalTable := [1, 2] } : Sim).bimodalTable 1
        = some c ∧
      makeBimodalPrediction { globals0 with isBimodal := true, bimodalTable := [1, 2] } 1
        = some p ∧
      (p = true ↔ 2 ≤ c) ∧ (0 ≤ c ∧ c ≤ 3 → (p = true ↔ c = 2 ∨ c = 3))) ∧
    (∃ c p,
      readAt ({ globals0 with isGshare := true, gshareTable := [3, 0] } : Sim).gshareTable 1
        = some c ∧
      makeGsharePrediction { globals0 with isGshare := true, gshareTable := [3, 0] } 1
        = some p ∧
      (p = true ↔ 2 ≤ c) ∧ (0 ≤ c ∧ c ≤ 3 → (p = true ↔ c = 2 ∨ c = 3))) :=
  have hb : InRange
      ({ globals0 with isBimodal := true, bimodalTable := [1, 2] } : Sim).bimodalTable 1 :=
    ⟨by decide, by decide⟩
  have hg : InRange
      ({ globals0 with isGshare := true, gshareTable := [3, 0] } : Sim).gshareTable 1 :=
    ⟨by decide, by decide⟩
  ⟨by decide, by decide, by decide, by decide, hb, hg,
    (makePrediction_spec { globals0 with isBimodal := true, bimodalTable := [1, 2] } 1).1 hb,
    (makePrediction_spec { globals0 with isGshare := true, gshareTable := [3, 0] } 1).2 hg⟩

/-! ## C6: `updateChooser` -/

/-- What `updateChooser` returns at an index inside the chooser table. -/
theorem updateChooser_eq (s : Sim) (index : Int) (gc bc : Bool) (old : Int)
    (hr : readAt s.chooserTable index = some old) :
    updateChooser s index gc bc = some
      (if gc = true ∧ bc = false then
        (if old < 3 then { s with chooserTable := s.chooserTable.set index.toNat (old + 1) }
         else s)
       else if bc = true ∧ gc = false then
        (if old > 0 then { s with chooserTable := s.chooserTable.set index.toNat (old - 1) }
         else s)
       else s) := by
  have hin := readAt_inRange hr
  unfold updateChooser
  cases gc <;> cases bc
  · simp
  · by_cases h : old > 0
    · simp [hr, h, writeAt_of_inRange _ index _ hin]
    · simp [hr, h]
  · by_cases h : old < 3
    · simp [hr, h, writeAt_of_inRange _ index _ hin]
    · simp [hr, h]
  · simp

/-- C6. For a chooser table with counters in [0,3], an index inside it and any
pair of correctness flags, `updateChooser` sets the indexed counter to
`min (old + 1) 3` when gshare was correct and bimodal was not, to
`max (old - 1) 0` when bimodal was correct and gshare was not, leaves it as it
is when both or neither were correct, leaves every other chooser entry as it
is, and touches nothing but the chooser table. -/
theorem updateChooser_spec (s : Sim) (index : Int) (gshareCorrect bimodalCorrect : Bool)
    (hc : CountersInRange s.chooserTable) (hi : InRange s.chooserTable index) :
    ∃ old t, readAt s.chooserTable index = some old ∧
      updateChooser s index gshareCorrect bimodalCorrect = some { s with chooserTable := t } ∧
      t.length = s.chooserTable.length ∧
      readAt t index = some
        (if gshareCorrect = true ∧ bimodalCorrect = false then min (old + 1) 3
         else if bimodalCorrect = true ∧ gshareCorrect = false then max (old - 1) 0
         else old) ∧
      ∀ j : Int, j ≠ index → readAt t j = readAt s.chooserTable j := by
  have hr := readAt_of_inRange _ index hi
  have hold := hc _ (readAt_mem hr)
  generalize s.chooserTable.get ⟨index.toNat, hi.2⟩ = old at hr hold
  have hu := updateChooser_eq s index gshareCorrect bimodalCorrect old hr
  by_cases h1 : gshareCorrect = true ∧ bimodalCorrect = false
  · by_cases h3 : old < 3
    · refine ⟨old, s.chooserTable.set index.toNat (old + 1), hr, ?_, List.length_set _ _ _, ?_,
        fun j hj => readAt_set_other _ index j _ hi.1 hj⟩
      · rw [hu, if_pos h1, if_pos h3]
      · rw [readAt_set_self _ index _ hi, if_pos h1]
        congr 1
        omega
    · refine ⟨old, s.chooserTable, hr, ?_, rfl, ?_, fun j _ => rfl⟩
      · rw [hu, if_pos h1, if_neg h3]
      · rw [hr, if_pos h1]
        congr 1
        omega
  · by_cases h2 : bimodalCorrect = true ∧ gshareCorrect = false
    · by_cases h0 : old > 0
      · refine ⟨old, s.chooserTable.set index.toNat (old - 1), hr, ?_, List.length_set _ _ _, ?_,
          fun j hj => readAt_set_other _ index j _ hi.1 hj⟩
        · rw [hu, if_neg h1, if_pos h2, if_pos h0]
        · rw [readAt_set_self _ index _ hi, if_neg h1, if_pos h2]
          congr 1
          omega
      · refine ⟨old, s.chooserTable, hr, ?_, rfl, ?_, fun j _ => rfl⟩
        · rw [hu, if_neg h1, if_pos h2, if_neg h0]
        · rw [hr, if_neg h1, if_pos h2]
          congr 1
          omega
    · refine ⟨old, s.chooserTable, hr, ?_, rfl, ?_, fun j _ => rfl⟩
      · rw [hu, if_neg h1, if_neg h2]
      · rw [hr, if_neg h1, if_neg h2]

/-- C6 on the chooser table `[1, 3]`, index 0, gshare right and bimodal wrong:
the counter goes from 1 to 2. -/
theorem updateChooser_spec_witness :
    CountersInRange [1, 3] ∧ InRange [1, 3] 0 ∧
    updateChooser { globals0 with chooserTable := [1, 3] } 0 true false
      = some { globals0 with chooserTable := [2, 3] } ∧
    ∃ old t, readAt ({ globals0 with chooserTable := [1, 3] } : Sim).chooserTable 0 = some old ∧
      updateChooser { globals0 with chooserTable := [1, 3] } 0 true false
        = some { ({ globals0 with chooserTable := [1, 3] } : Sim) with chooserTable := t } ∧
      t.length = ({ globals0 with chooserTable := [1, 3] } : Sim).chooserTable.length ∧
      readAt t 0 = some
        (if true = true ∧ false = false then min (old + 1) 3
         else if false = true ∧ true = false then max (old - 1) 0
         else old) ∧
      ∀ j : Int, j ≠ 0 →
        readAt t j = readAt ({ globals0 with chooserTable := [1, 3] } : Sim).chooserTable j :=
  have hc : CountersInRange [1, 3] := by
    intro c h
    simp only [List.mem_cons, List.mem_singleton, List.not_mem_nil, or_false] at h
    rcases h with h | h
    · omega
    · omega
  have hi : InRange [1, 3] 0 := ⟨by decide, by decide⟩
  ⟨hc, hi, by decide,
    updateChooser_spec { globals0 with chooserTable := [1, 3] } 0 true false hc hi⟩

/-! ## Lemmas on the machine integers -/

theorem checkInt_of_range (x : Int) (h0 : INT_MIN ≤ x) (h1 : x ≤ INT_MAX) :
    checkInt x = some x := by
  unfold checkInt
  exact if_pos ⟨h0, h1⟩

theorem checkInt_eq_some {x y : Int} (h : checkInt x = some y) :
    y = x ∧ INT_MIN ≤ x ∧ x ≤ INT_MAX := by
  unfold checkInt at h
  split at h
  · rename_i hx
    injection h with h
    exact ⟨h.symm, hx⟩
  · cases h

theorem toInt_natCast (a : Nat) (h : a < 2147483648) : toInt (a : Int) = (a : Int) := by
  unfold toInt
  omega

theorem toUInt_natCast (a : Nat) (h : a < 4294967296) : toUInt (a : Int) = a := by
  unfold toUInt
  omega

theorem toULong_natCast (a : Nat) (h : a < 18446744073709551616) : toULong (a : Int) = a := by
  unfold toULong
  omega

theorem two_pow_le_of_le_30 (m : Nat) (h : m ≤ 30) : 2 ^ m ≤ 1073741824 := by
  calc 2 ^ m ≤ 2 ^ 30 := Nat.pow_le_pow_right (by decide) h
    _ = 1073741824 := by norm_num

theorem two_pow_le_of_le_31 (m : Nat) (h : m ≤ 31) : 2 ^ m ≤ 2147483648 := by
  calc 2 ^ m ≤ 2 ^ 31 := Nat.pow_le_pow_right (by decide) h
    _ = 2147483648 := by norm_num

/-- The shift `1 << m` for a width of at most 30 is the power of two. -/
theorem shlInt_one (m : Nat) (h : m ≤ 30) : shlInt 1 (m : Int) = some ((2 ^ m : Nat) : Int) := by
  have hp := two_pow_le_of_le_30 m h
  unfold shlInt
  rw [if_pos ⟨by omega, by omega⟩]
  congr 1
  rw [Int.toNat_ofNat, one_mul]
  have : ((2 : Int) ^ m) = ((2 ^ m : Nat) : Int) := by push_cast; rfl
  rw [this]
  exact toInt_natCast _ (by omega)

/-- The mask `(1 << m) - 1` for a width of at most 30. -/
theorem mask_eq (m : Nat) (h : m ≤ 30) :
    checkInt (((2 ^ m : Nat) : Int) - 1) = some ((2 ^ m - 1 : Nat) : Int) := by
  have hp := two_pow_le_of_le_30 m h
  have hpos : 0 < 2 ^ m := Nat.two_pow_pos m
  have he : ((2 ^ m : Nat) : Int) - 1 = ((2 ^ m - 1 : Nat) : Int) := by omega
  rw [he]
  apply checkInt_of_range
  · unfold INT_MIN; omega
  · unfold INT_MAX; omega

/-- Dropping the two alignment bits of a 64-bit address and keeping the low
`m` bits, for `m` at most 62, does not depend on the bits above bit 63. -/
theorem addr_index (addr m : Nat) (h : m ≤ 62) :
    ((addr % 18446744073709551616) >>> 2) &&& (2 ^ m - 1) = (addr >>> 2) % 2 ^ m := by
  rw [Nat.and_pow_two_sub_one_eq_mod, Nat.shiftRight_eq_div_pow, Nat.shiftRight_eq_div_pow]
  have h64 : (18446744073709551616 : Nat) = 2 ^ 2 * 2 ^ 62 := by norm_num
  rw [h64, Nat.mod_mul_right_div_self]
  exact Nat.mod_mod_of_dvd _ (Nat.pow_dvd_pow 2 h)

theorem le_30_of_two_pow_le (m : Nat) (h : ((2 ^ m : Nat) : Int) ≤ INT_MAX) : m ≤ 30 := by
  unfold INT_MAX at h
  by_contra hm
  have h31 : 2 ^ 31 ≤ 2 ^ m := Nat.pow_le_pow_right (by decide) (by omega)
  have : (2 : Nat) ^ 31 = 2147483648 := by norm_num
  omega

/-- The value `getBimodalIndex` computes for a table of `2^m2` entries,
`m2 ≤ 30`. -/
theorem getBimodalIndex_eq (s : Sim) (m2 addr : Nat)
    (hsize : s.numBimodalEntries = ((2 ^ m2 : Nat) : Int)) (hm : m2 ≤ 30) :
    getBimodalIndex s addr = some (((addr >>> 2) % 2 ^ m2 : Nat) : Int) := by
  have hp := two_pow_le_of_le_30 m2 hm
  have hlt : (addr >>> 2) % 2 ^ m2 < 2 ^ m2 := Nat.mod_lt _ (Nat.two_pow_pos m2)
  unfold getBimodalIndex
  rw [hsize, mask_eq m2 hm]
  simp only [Option.bind_eq_bind, Option.some_bind]
  rw [toULong_natCast _ (by omega), addr_index addr m2 (by omega),
    toInt_natCast _ (by omega)]

/-- The value `getChooserIndex` computes for a chooser width `k ≤ 30`. -/
theorem getChooserIndex_eq (s : Sim) (k addr : Nat) (hk : s.k = (k : Int)) (hk30 : k ≤ 30) :
    getChooserIndex s addr = some (((addr >>> 2) % 2 ^ k : Nat) : Int) := by
  have hp := two_pow_le_of_le_30 k hk30
  have hlt : (addr >>> 2) % 2 ^ k < 2 ^ k := Nat.mod_lt _ (Nat.two_pow_pos k)
  unfold getChooserIndex
  rw [hk, shlInt_one k hk30]
  simp only [Option.bind_eq_bind, Option.some_bind]
  rw [mask_eq k hk30]
  simp only [Option.some_bind]
  rw [toULong_natCast _ (by omega), addr_index addr k (by omega),
    toInt_natCast _ (by omega)]

/-! ## C8: the bimodal index -/

/-- C8. For every width `m2` and every state whose `numBimodalEntries` (an
`int`) holds the table size `2^m2`, and for every address,
`getBimodalIndex` returns `(addr >> 2) mod 2^m2`, which is
`(addr >> 2) & (2^m2 - 1)`. -/
theorem getBimodalIndex_spec (s : Sim) (m2 addr : Nat)
    (hsize : s.numBimodalEntries = ((2 ^ m2 : Nat) : Int))
    (hint : s.numBimodalEntries ≤ INT_MAX) :
    getBimodalIndex s addr = some (((addr >>> 2) % 2 ^ m2 : Nat) : Int) ∧
    (addr >>> 2) % 2 ^ m2 = (addr >>> 2) &&& (2 ^ m2 - 1) :=
  ⟨getBimodalIndex_eq s m2 addr hsize (le_30_of_two_pow_le m2 (hsize ▸ hint)),
    (Nat.and_pow_two_sub_one_eq_mod _ _).symm⟩

/-- C8 with a table of 4 entries (`m2 = 2`) at the address `0x1004`: the
index is 1. -/
theorem getBimodalIndex_spec_witness :
    ({ globals0 with numBimodalEntries := 4 } : Sim).numBimodalEntries = ((2 ^ 2 : Nat) : Int) ∧
    ({ globals0 with numBimodalEntries := 4 } : Sim).numBimodalEntries ≤ INT_MAX ∧
    getBimodalIndex { globals0 with numBimodalEntries := 4 } 4100 = some 1 ∧
    (getBimodalIndex { globals0 with numBimodalEntries := 4 } 4100
        = some (((4100 >>> 2) % 2 ^ 2 : Nat) : Int) ∧
      (4100 >>> 2) % 2 ^ 2 = (4100 >>> 2) &&& (2 ^ 2 - 1)) :=
  ⟨by decide, by decide, by decide,
    getBimodalIndex_spec { globals0 with numBimodalEntries := 4 } 2 4100 (by decide) (by decide)⟩

/-! ## Lemmas on the bitwise operations of `int` in the non-negative range -/

theorem shrInt_natCast (a d : Nat) (hd : d < 32) :
    shrInt (a : Int) (d : Int) = some ((a / 2 ^ d : Nat) : Int) := by
  unfold shrInt
  rw [if_pos ⟨by omega, by omega⟩, Int.toNat_ofNat]
  congr 1
  push_cast
  rfl

theorem andInt_natCast (a b : Nat) (ha : a < 2147483648) (hb : b < 2147483648) :
    andInt (a : Int) (b : Int) = ((a &&& b : Nat) : Int) := by
  unfold andInt
  rw [toUInt_natCast a (by omega), toUInt_natCast b (by omega)]
  have : a &&& b ≤ a := Nat.and_le_left
  exact toInt_natCast _ (by omega)

theorem orInt_natCast (a b : Nat) (ha : a < 2147483648) (hb : b < 2147483648) :
    orInt (a : Int) (b : Int) = ((a ||| b : Nat) : Int) := by
  unfold orInt
  rw [toUInt_natCast a (by omega), toUInt_natCast b (by omega)]
  have h31 : (2147483648 : Nat) = 2 ^ 31 := by norm_num
  have : a ||| b < 2 ^ 31 := Nat.or_lt_two_pow (h31 ▸ ha) (h31 ▸ hb)
  exact toInt_natCast _ (by omega)

theorem shlUInt_natCast (x d : Nat) (hd : d < 32) (h : x * 2 ^ d < 4294967296) :
    shlUInt x (d : Int) = some (x * 2 ^ d) := by
  unfold shlUInt
  rw [if_pos ⟨by omega, by omega⟩, Int.toNat_ofNat, Nat.shiftLeft_eq, Nat.mod_eq_of_lt h]

/-- The fields of the word `x * 2^d + low` for `low < 2^d`. -/
theorem fields_of_concat (x low d : Nat) (hlow : low < 2 ^ d) :
    (x * 2 ^ d ||| low) = x * 2 ^ d + low ∧
    (x * 2 ^ d + low) / 2 ^ d = x ∧ (x * 2 ^ d + low) % 2 ^ d = low := by
  have hpos : 0 < 2 ^ d := Nat.two_pow_pos d
  refine ⟨?_, ?_, ?_⟩
  · rw [Nat.mul_comm x, Nat.mul_add_lt_is_or hlow]
  · rw [Nat.mul_comm x, Nat.mul_add_div hpos, Nat.div_eq_of_lt hlow, Nat.add_zero]
  · rw [Nat.mul_comm x, Nat.mul_add_mod, Nat.mod_eq_of_lt hlow]

/-- The value `getGshareIndex` computes when no conversion changes a value:
widths `n` and `d` (so that `m1 = d + n`) with `d + n ≤ 30`. -/
theorem getGshareIndex_eq (s : Sim) (d n addr : Nat) (hm1 : s.m1 = ((d + n : Nat) : Int))
    (hn : s.n = (n : Int)) (h30 : d + n ≤ 30) :
    getGshareIndex s addr = some
      (((((addr >>> 2) % 2 ^ (d + n)) / 2 ^ d ^^^ s.globalHistoryRegister % 2 ^ n) * 2 ^ d
        + ((addr >>> 2) % 2 ^ (d + n)) % 2 ^ d : Nat) : Int) := by
  have hpm := two_pow_le_of_le_30 (d + n) h30
  have hpn := two_pow_le_of_le_30 n (by omega)
  have hpd := two_pow_le_of_le_30 d (by omega)
  have hposn : 0 < 2 ^ n := Nat.two_pow_pos n
  have hposd : 0 < 2 ^ d := Nat.two_pow_pos d
  generalize hpc : (addr >>> 2) % 2 ^ (d + n) = pc
  have hpclt : pc < 2 ^ (d + n) := hpc ▸ Nat.mod_lt _ (Nat.two_pow_pos _)
  have hup : pc / 2 ^ d < 2 ^ n := by
    apply Nat.div_lt_of_lt_mul
    rw [← Nat.pow_add]
    exact hpclt
  have hhist : s.globalHistoryRegister % 2 ^ n < 2 ^ n := Nat.mod_lt _ hposn
  have hx : pc / 2 ^ d ^^^ s.globalHistoryRegister % 2 ^ n < 2 ^ n :=
    Nat.xor_lt_two_pow hup hhist
  have hlow : pc % 2 ^ d < 2 ^ d := Nat.mod_lt _ hposd
  have hxd : (pc / 2 ^ d ^^^ s.globalHistoryRegister % 2 ^ n) * 2 ^ d < 2 ^ (d + n) := by
    rw [Nat.pow_add, Nat.mul_comm (2 ^ d)]
    exact Nat.mul_lt_mul_of_pos_right hx hposd
  have hdiff : ((d + n : Nat) : Int) - (n : Int) = (d : Int) := by omega
  unfold getGshareIndex
  rw [hm1, hn, shlInt_one (d + n) h30, shlInt_one n (by omega), hdiff]
  simp only [Option.bind_eq_bind, Option.some_bind]
  rw [mask_eq (d + n) h30, mask_eq n (by omega)]
  simp only [Option.some_bind]
  rw [checkInt_of_range (d : Int) (by unfold INT_MIN; omega) (by unfold INT_MAX; omega)]
  simp only [Option.some_bind]
  rw [toULong_natCast _ (by omega), addr_index addr (d + n) (by omega), hpc,
    toInt_natCast pc (by omega), shrInt_natCast pc d (by omega)]
  simp only [Option.some_bind]
  rw [andInt_natCast _ _ (by omega) (by omega), Nat.and_pow_two_sub_one_eq_mod,
    Nat.mod_eq_of_lt hup, toUInt_natCast _ (by omega), toUInt_natCast _ (by omega),
    Nat.and_pow_two_sub_one_eq_mod, shlUInt_natCast _ d (by omega) (by omega)]
  simp only [Option.some_bind]
  rw [shlInt_one d (by omega)]
  simp only [Option.some_bind]
  rw [mask_eq d (by omega)]
  simp only [Option.some_bind]
  rw [toInt_natCast _ (by omega), andInt_natCast _ _ (by omega) (by omega),
    Nat.and_pow_two_sub_one_eq_mod, orInt_natCast _ _ (by omega) (by omega),
    (fields_of_concat _ _ d hlow).1]

/-- The word with upper field `pc / 2^d XOR h mod 2^n` and lower field
`pc mod 2^d` is below `2^(d+n)` when `pc` is. -/
theorem gshare_value_lt (pc h d n : Nat) (hpc : pc < 2 ^ (d + n)) :
    (pc / 2 ^ d ^^^ h % 2 ^ n) * 2 ^ d + pc % 2 ^ d < 2 ^ (d + n) := by
  have hlow : pc % 2 ^ d < 2 ^ d := Nat.mod_lt _ (Nat.two_pow_pos d)
  have hup : pc / 2 ^ d < 2 ^ n := by
    apply Nat.div_lt_of_lt_mul
    rw [← Nat.pow_add]
    exact hpc
  have hx := Nat.xor_lt_two_pow hup (Nat.mod_lt h (Nat.two_pow_pos n))
  generalize pc / 2 ^ d ^^^ h % 2 ^ n = x at hx
  generalize pc % 2 ^ d = low at hlow
  calc x * 2 ^ d + low < x * 2 ^ d + 2 ^ d := Nat.add_lt_add_left hlow _
    _ = (x + 1) * 2 ^ d := by ring
    _ ≤ 2 ^ n * 2 ^ d := Nat.mul_le_mul_right _ hx
    _ = 2 ^ (d + n) := by rw [Nat.pow_add, Nat.mul_comm]

/-! ## C3: the gshare index -/

/-- C3, as amended. For all widths with `n ≤ m1 ≤ 30`, every address and every
history register value, `getGshareIndex` returns a value below `2^m1` whose
upper `n` bits are the upper `n` bits of `pcIndex` XOR the low `n` bits of the
history register, and whose lower `m1 - n` bits are those of `pcIndex`, where
`pcIndex = (addr >> 2) mod 2^m1`. -/
theorem getGshareIndex_spec (s : Sim) (m1 n addr : Nat) (hm1 : s.m1 = (m1 : Int))
    (hn : s.n = (n : Int)) (hle : n ≤ m1) (h30 : m1 ≤ 30) :
    ∃ g : Nat, getGshareIndex s addr = some (g : Int) ∧ g < 2 ^ m1 ∧
      g / 2 ^ (m1 - n)
        = ((addr >>> 2) % 2 ^ m1) / 2 ^ (m1 - n) ^^^ s.globalHistoryRegister % 2 ^ n ∧
      g % 2 ^ (m1 - n) = ((addr >>> 2) % 2 ^ m1) % 2 ^ (m1 - n) := by
  obtain ⟨d, rfl⟩ : ∃ d, m1 = d + n := ⟨m1 - n, by omega⟩
  have hd : d + n - n = d := by omega
  rw [hd]
  have hpc : (addr >>> 2) % 2 ^ (d + n) < 2 ^ (d + n) := Nat.mod_lt _ (Nat.two_pow_pos _)
  have hlow : ((addr >>> 2) % 2 ^ (d + n)) % 2 ^ d < 2 ^ d := Nat.mod_lt _ (Nat.two_pow_pos d)
  have hf := fields_of_concat
    (((addr >>> 2) % 2 ^ (d + n)) / 2 ^ d ^^^ s.globalHistoryRegister % 2 ^ n) _ d hlow
  exact ⟨_, getGshareIndex_eq s d n addr hm1 hn h30,
    gshare_value_lt _ s.globalHistoryRegister d n hpc, hf.2.1, hf.2.2⟩

/-- C3 at `m1 = 4`, `n = 2`, history register 3 and address `0xFFFF`:
`pcIndex` is 15, its upper field 3 is XORed to 0, the lower field 3 is kept. -/
theorem getGshareIndex_spec_witness :
    getGshareIndex { globals0 with m1 := 4, n := 2, globalHistoryRegister := 3 } 65535 = some 3 ∧
    ∃ g : Nat,
      getGshareIndex { globals0 with m1 := 4, n := 2, globalHistoryRegister := 3 } 65535
        = some (g : Int) ∧ g < 2 ^ 4 ∧
      g / 2 ^ (4 - 2) = ((65535 >>> 2) % 2 ^ 4) / 2 ^ (4 - 2)
        ^^^ ({ globals0 with m1 := 4, n := 2, globalHistoryRegister := 3 } : Sim).globalHistoryRegister
          % 2 ^ 2 ∧
      g % 2 ^ (4 - 2) = ((65535 >>> 2) % 2 ^ 4) % 2 ^ (4 - 2) :=
  ⟨by decide,
    getGshareIndex_spec { globals0 with m1 := 4, n := 2, globalHistoryRegister := 3 } 4 2 65535
      (by decide) (by decide) (by decide) (by decide)⟩

/-- C3 as stated fails at `m1 = 33`, `n = 1`, history register 0 and address
`2^34`: there `pcIndex` is `2^32`, so the value the claim describes has upper
field 1 and lower field 0, and every such value is above `INT_MAX`, outside
the return type of the function; the shift `1 << 33` of line 24 has no
defined value and the embedding yields `none`. -/
theorem getGshareIndex_wide_counterexample :
    (1 : Nat) ≤ 33 ∧
    getGshareIndex { globals0 with m1 := 33, n := 1 } 17179869184 = none ∧
    (∀ g : Nat,
      g / 2 ^ (33 - 1) = ((17179869184 >>> 2) % 2 ^ 33) / 2 ^ (33 - 1) ^^^ 0 % 2 ^ 1 →
      INT_MAX < (g : Int)) ∧
    ¬ ∃ g : Nat, getGshareIndex { globals0 with m1 := 33, n := 1 } 17179869184 = some (g : Int) ∧
      g < 2 ^ 33 ∧
      g / 2 ^ (33 - 1) = ((17179869184 >>> 2) % 2 ^ 33) / 2 ^ (33 - 1)
        ^^^ ({ globals0 with m1 := 33, n := 1 } : Sim).globalHistoryRegister % 2 ^ 1 ∧
      g % 2 ^ (33 - 1) = ((17179869184 >>> 2) % 2 ^ 33) % 2 ^ (33 - 1) := by
  have hnone : getGshareIndex { globals0 with m1 := 33, n := 1 } 17179869184 = none := by
    decide
  refine ⟨by decide, hnone, ?_, ?_⟩
  · intro g hg
    have h1 : ((17179869184 >>> 2) % 2 ^ 33) / 2 ^ (33 - 1) ^^^ 0 % 2 ^ 1 = 1 := by decide
    rw [h1] at hg
    have h2 : (2 : Nat) ^ (33 - 1) = 4294967296 := by norm_num
    rw [h2] at hg
    unfold INT_MAX
    omega
  · rintro ⟨g, hg, _⟩
    rw [hnone] at hg
    cases hg

/-! ## C10: one update of the global history register -/

theorem toUInt_toInt (x : Int) : toUInt (toInt x) = toUInt x := by
  unfold toUInt toInt
  omega

/-- The value `updateGlobalHistoryRegister` stores for a history width in
`[1, 32]`. -/
theorem updateGlobalHistoryRegister_eq (s : Sim) (n : Nat) (outcome : Bool)
    (hn : s.n = (n : Int)) (h1 : 1 ≤ n) (h32 : n ≤ 32) :
    updateGlobalHistoryRegister s outcome = some { s with
      globalHistoryRegister :=
        (s.globalHistoryRegister >>> 1) ||| (if outcome then 2 ^ (n - 1) else 0) } := by
  have hp : 2 ^ (n - 1) ≤ 2147483648 := two_pow_le_of_le_31 (n - 1) (by omega)
  have hd : (n : Int) - 1 = ((n - 1 : Nat) : Int) := by omega
  unfold updateGlobalHistoryRegister
  rw [hn, hd, checkInt_of_range _ (by unfold INT_MIN; omega) (by unfold INT_MAX; omega)]
  simp only [Option.bind_eq_bind, Option.some_bind]
  unfold shlInt
  rw [if_pos ⟨by omega, by omega⟩, Int.toNat_ofNat]
  simp only [Option.some_bind]
  rw [toUInt_toInt]
  cases outcome
  · simp [toUInt]
  · have hc : ((2 : Int) ^ (n - 1)) = ((2 ^ (n - 1) : Nat) : Int) := by push_cast; rfl
    simp only [if_true, one_mul]
    rw [hc, toUInt_natCast _ (by omega)]

/-- The bits of `(h >> 1) | (outcome << (n - 1))` for `h` below `2^n`. -/
theorem history_bits (h n : Nat) (outcome : Bool) (h1 : 1 ≤ n) (hh : h < 2 ^ n) (i : Nat) :
    ((h >>> 1) ||| (if outcome then 2 ^ (n - 1) else 0)).testBit i
      = if i + 1 < n then h.testBit (i + 1) else (decide (i + 1 = n) && outcome) := by
  have hhi : ∀ j, n ≤ j → h.testBit j = false := by
    intro j hj
    apply Nat.testBit_lt_two_pow
    exact Nat.lt_of_lt_of_le hh (Nat.pow_le_pow_right (by decide) hj)
  rw [Nat.testBit_or, Nat.testBit_shiftRight, Nat.add_comm 1 i]
  by_cases hi : i + 1 < n
  · rw [if_pos hi]
    cases outcome
    · simp
    · have : ¬ (n - 1 = i) := by omega
      simp [Nat.testBit_two_pow, this]
  · rw [if_neg hi, hhi (i + 1) (by omega)]
    cases outcome
    · simp
    · by_cases he : i + 1 = n
      · have : n - 1 = i := by omega
        simp [Nat.testBit_two_pow, this, he]
      · have : ¬ (n - 1 = i) := by omega
        simp [Nat.testBit_two_pow, this, he]

/-- C10, as amended. For every `n` with `1 ≤ n ≤ 32`, every register value
`h` below `2^n` and every outcome, `updateGlobalHistoryRegister` stores the
value `(h >> 1) + outcome * 2^(n-1)`: its bits 0 to n-2 are bits 1 to n-1 of
`h`, its bit n-1 is the outcome, its higher bits are 0; nothing else in the
state changes. -/
theorem updateGlobalHistoryRegister_spec (s : Sim) (n : Nat) (outcome : Bool)
    (hn : s.n = (n : Int)) (h1 : 1 ≤ n) (h32 : n ≤ 32)
    (hh : s.globalHistoryRegister < 2 ^ n) :
    ∃ g : Nat, updateGlobalHistoryRegister s outcome
        = some { s with globalHistoryRegister := g } ∧
      g = (s.globalHistoryRegister >>> 1) + (if outcome then 1 else 0) * 2 ^ (n - 1) ∧
      (∀ i, i + 1 < n → g.testBit i = s.globalHistoryRegister.testBit (i + 1)) ∧
      g.testBit (n - 1) = outcome ∧
      (∀ i, n ≤ i → g.testBit i = false) := by
  refine ⟨_, updateGlobalHistoryRegister_eq s n outcome hn h1 h32, ?_, ?_, ?_, ?_⟩
  · have hlt : s.globalHistoryRegister >>> 1 < 2 ^ (n - 1) := by
      rw [Nat.shiftRight_eq_div_pow]
      apply Nat.div_lt_of_lt_mul
      rw [← Nat.pow_add]
      have : 1 + (n - 1) = n := by omega
      rw [this]
      exact hh
    cases outcome
    · simp
    · simp only [if_true, one_mul]
      rw [Nat.lor_comm, Nat.add_comm]
      have := Nat.mul_add_lt_is_or hlt 1
      rw [Nat.mul_one] at this
      exact this.symm
  · intro i hi
    rw [history_bits _ n outcome h1 hh i, if_pos hi]
  · rw [history_bits _ n outcome h1 hh (n - 1), if_neg (by omega)]
    have : n - 1 + 1 = n := by omega
    simp [this]
  · intro i hi
    rw [history_bits _ n outcome h1 hh i, if_neg (by omega)]
    have : ¬ (i + 1 = n) := by omega
    simp [this]

/-- C10 at `n = 3`, register `0b101`, outcome taken: the register becomes
`0b110`. -/
theorem updateGlobalHistoryRegister_spec_witness :
    updateGlobalHistoryRegister { globals0 with n := 3, globalHistoryRegister := 5 } true
      = some { globals0 with n := 3, globalHistoryRegister := 6 } ∧
    ∃ g : Nat,
      updateGlobalHistoryRegister { globals0 with n := 3, globalHistoryRegister := 5 } true
        = some { ({ globals0 with n := 3, globalHistoryRegister := 5 } : Sim) with
            globalHistoryRegister := g } ∧
      g = (({ globals0 with n := 3, globalHistoryRegister := 5 } : Sim).globalHistoryRegister >>> 1)
        + (if true then 1 else 0) * 2 ^ (3 - 1) ∧
      (∀ i, i + 1 < 3 → g.testBit i
        = ({ globals0 with n := 3, globalHistoryRegister := 5 } : Sim).globalHistoryRegister.testBit
            (i + 1)) ∧
      g.testBit (3 - 1) = true ∧
      (∀ i, 3 ≤ i → g.testBit i = false) :=
  ⟨by decide,
    updateGlobalHistoryRegister_spec { globals0 with n := 3, globalHistoryRegister := 5 } 3 true
      (by decide) (by decide) (by decide) (by decide)⟩

/-- C10 as stated fails at `n = 33`, register 0, outcome taken: the value the
claim describes is `2^32`, which the 32-bit register cannot hold; the shift
`outcome << 32` has no defined value and the embedding yields `none`. -/
theorem updateGlobalHistoryRegister_wide_counterexample :
    (1 : Nat) ≤ 33 ∧
    ({ globals0 with n := 33 } : Sim).globalHistoryRegister < 2 ^ 33 ∧
    updateGlobalHistoryRegister { globals0 with n := 33 } true = none ∧
    ¬ ((({ globals0 with n := 33 } : Sim).globalHistoryRegister >>> 1)
        + (if true then 1 else 0) * 2 ^ (33 - 1) < 4294967296) ∧
    ¬ ∃ g : Nat, updateGlobalHistoryRegister { globals0 with n := 33 } true
        = some { ({ globals0 with n := 33 } : Sim) with globalHistoryRegister := g } ∧
      g = (({ globals0 with n := 33 } : Sim).globalHistoryRegister >>> 1)
        + (if true then 1 else 0) * 2 ^ (33 - 1) := by
  have hnone : updateGlobalHistoryRegister { globals0 with n := 33 } true = none := by decide
  refine ⟨by decide, by decide, hnone, by decide, ?_⟩
  rintro ⟨g, hg, _⟩
  rw [hnone] at hg
  cases hg

/-! ## C4: the history register after a sequence of updates -/

theorem updateHistoryAll_append (s : Sim) (os : List Bool) (o : Bool) :
    updateHistoryAll s (os ++ [o])
      = (updateHistoryAll s os).bind fun s1 => updateGlobalHistoryRegister s1 o := by
  induction os generalizing s with
  | nil =>
    simp only [List.nil_append, updateHistoryAll, Option.some_bind]
    cases updateGlobalHistoryRegister s o <;> rfl
  | cons a rest ih =>
    simp only [List.cons_append, updateHistoryAll]
    cases updateGlobalHistoryRegister s a with
    | none => rfl
    | some s1 => exact ih s1

/-- After the outcomes `os`, applied to a zero register of width `n` in
`[1, 32]`, bit `i` of the register is the outcome at position `n - 1 - i` of
the reversed list (most recent first), and 0 where there is none. -/
theorem updateHistoryAll_bits (s : Sim) (n : Nat) (os : List Bool)
    (hn : s.n = (n : Int)) (h1 : 1 ≤ n) (h32 : n ≤ 32) (h0 : s.globalHistoryRegister = 0) :
    ∃ g : Nat, updateHistoryAll s os = some { s with globalHistoryRegister := g } ∧
      ∀ i, g.testBit i = (decide (i < n) && os.reverse.getD (n - 1 - i) false) := by
  induction os using List.reverseRecOn with
  | nil =>
    refine ⟨0, ?_, ?_⟩
    · simp only [updateHistoryAll]
      rw [← h0]
    · intro i
      simp
  | append_singleton rest o ih =>
    obtain ⟨g, hg, hbits⟩ := ih
    have hglt : g < 2 ^ n := by
      apply Nat.lt_pow_two_of_testBit
      intro i hi
      rw [hbits i]
      have : ¬ i < n := by omega
      simp [this]
    rw [updateHistoryAll_append, hg]
    simp only [Option.some_bind]
    refine ⟨_, updateGlobalHistoryRegister_eq _ n o hn h1 h32, ?_⟩
    intro i
    show ((g >>> 1) ||| (if o then 2 ^ (n - 1) else 0)).testBit i = _
    rw [history_bits g n o h1 hglt i, List.reverse_append, List.reverse_singleton,
      List.singleton_append]
    by_cases hi : i + 1 < n
    · rw [if_pos hi, hbits (i + 1)]
      have e1 : n - 1 - i = (n - 1 - (i + 1)) + 1 := by omega
      have e2 : i < n := by omega
      rw [e1, List.getD_cons_succ]
      simp [hi, e2]
    · rw [if_neg hi]
      by_cases he : i + 1 = n
      · have e1 : n - 1 - i = 0 := by omega
        have e2 : i < n := by omega
        rw [e1, List.getD_cons_zero]
        simp [he, e2]
      · have e2 : ¬ i < n := by omega
        simp [he, e2]

/-- C4, as amended. For every `n` with `1 ≤ n ≤ 32` and every sequence of
outcomes `o_1 .. o_k` applied by `updateGlobalHistoryRegister` to a register
that starts at zero, the resulting register has bit `n-1-j` equal to `o_(k-j)`
for every `j < min k n` and every other bit equal to 0; the most recent outcome
is in bit `n-1` and the register is below `2^n`.  Nothing else in the state
changes. -/
theorem updateHistoryAll_spec (s : Sim) (n : Nat) (os : List Bool)
    (hn : s.n = (n : Int)) (h1 : 1 ≤ n) (h32 : n ≤ 32) (h0 : s.globalHistoryRegister = 0) :
    ∃ g : Nat, updateHistoryAll s os = some { s with globalHistoryRegister := g } ∧
      (∀ j, j < min os.length n → os[os.length - 1 - j]? = some (g.testBit (n - 1 - j))) ∧
      (∀ i, (n ≤ i ∨ i + os.length < n) → g.testBit i = false) ∧
      (∀ o, os.getLast? = some o → g.testBit (n - 1) = o) ∧
      g < 2 ^ n := by
  obtain ⟨g, hg, hbits⟩ := updateHistoryAll_bits s n os hn h1 h32 h0
  have hrecent : ∀ j, j < min os.length n →
      os[os.length - 1 - j]? = some (g.testBit (n - 1 - j)) := by
    intro j hj
    have hjk : j < os.length := by omega
    have hjn : n - 1 - j < n := by omega
    have e : n - 1 - (n - 1 - j) = j := by omega
    rw [hbits (n - 1 - j), e, List.getD_eq_getElem?_getD,
      List.getElem?_reverse hjk]
    have hlt : os.length - 1 - j < os.length := by omega
    rw [List.getElem?_eq_getElem hlt]
    simp [hjn]
  refine ⟨g, hg, hrecent, ?_, ?_, ?_⟩
  · intro i hi
    rw [hbits i]
    by_cases hlt : i < n
    · have hge : os.reverse.length ≤ n - 1 - i := by
        rw [List.length_reverse]
        omega
      rw [List.getD_eq_getElem?_getD, List.getElem?_eq_none hge]
      simp
    · simp [hlt]
  · intro o ho
    have hne : os ≠ [] := by
      intro h
      rw [h] at ho
      cases ho
    have hpos : 0 < os.length := List.length_pos.mpr hne
    have h := hrecent 0 (by omega)
    rw [List.getLast?_eq_getElem?] at ho
    rw [Nat.sub_zero] at h
    rw [h] at ho
    simpa using ho
  · apply Nat.lt_pow_two_of_testBit
    intro i hi
    rw [hbits i]
    have : ¬ i < n := by omega
    simp [this]

/-- C4 at `n = 2` with the outcomes taken, taken, not taken: the register ends
as `0b01` (bit 1 holds the last outcome, bit 0 the one before). -/
theorem updateHistoryAll_spec_witness :
    updateHistoryAll { globals0 with n := 2 } [true, true, false]
      = some { globals0 with n := 2, globalHistoryRegister := 1 } ∧
    ∃ g : Nat, updateHistoryAll { globals0 with n := 2 } [true, true, false]
        = some { ({ globals0 with n := 2 } : Sim) with globalHistoryRegister := g } ∧
      (∀ j, j < min [true, true, false].length 2 →
        [true, true, false][[true, true, false].length - 1 - j]?
          = some (g.testBit (2 - 1 - j))) ∧
      (∀ i, (2 ≤ i ∨ i + [true, true, false].length < 2) → g.testBit i = false) ∧
      (∀ o, [true, true, false].getLast? = some o → g.testBit (2 - 1) = o) ∧
      g < 2 ^ 2 :=
  ⟨by decide,
    updateHistoryAll_spec { globals0 with n := 2 } 2 [true, true, false]
      (by decide) (by decide) (by decide) (by decide)⟩

/-- C4 as stated fails at `n = 33` with the single outcome taken: the claim
puts that outcome in bit 32, and no value of the 32-bit register has bit 32
set; the shift `outcome << 32` has no defined value and the embedding yields
`none`. -/
theorem updateHistoryAll_wide_counterexample :
    (1 : Nat) ≤ 33 ∧
    ({ globals0 with n := 33 } : Sim).globalHistoryRegister = 0 ∧
    updateHistoryAll { globals0 with n := 33 } [true] = none ∧
    (∀ g : Nat, g < 4294967296 → g.testBit (33 - 1) = false) ∧
    ¬ ∃ g : Nat, updateHistoryAll { globals0 with n := 33 } [true]
        = some { ({ globals0 with n := 33 } : Sim) with globalHistoryRegister := g } ∧
      (∀ o, [true].getLast? = some o → g.testBit (33 - 1) = o) := by
  have hnone : updateHistoryAll { globals0 with n := 33 } [true] = none := by decide
  refine ⟨by decide, rfl, hnone, ?_, ?_⟩
  · intro g hg
    apply Nat.testBit_lt_two_pow
    have : (2 : Nat) ^ (33 - 1) = 4294967296 := by norm_num
    omega
  · rintro ⟨g, hg, _⟩
    rw [hnone] at hg
    cases hg

/-! ## Lemmas on the loop body -/

theorem countMisprediction_eq_some {s s1 : Sim} {prediction actualOutcome : Bool}
    (h : countMisprediction s prediction actualOutcome = some s1) :
    s1 = { s with mispredictions :=
      s.mispredictions + (if prediction = actualOutcome then 0 else 1) } := by
  unfold countMisprediction at h
  by_cases hp : prediction = actualOutcome
  · subst hp
    simp only [bne_self_eq_false, Bool.false_eq_true, if_false] at h
    injection h with h
    subst h
    simp
  · have hne : (prediction != actualOutcome) = true := by simpa using hp
    rw [if_pos hne] at h
    simp only [Option.bind_eq_bind, Option.bind_eq_some] at h
    obtain ⟨c, hc, h⟩ := h
    injection h with h
    subst h
    rw [(checkInt_eq_some hc).1, if_neg hp]

theorem updateGlobalHistoryRegister_eq_some {s s1 : Sim} {outcome : Bool}
    (h : updateGlobalHistoryRegister s outcome = some s1) :
    ∃ g, s1 = { s with globalHistoryRegister := g } := by
  unfold updateGlobalHistoryRegister at h
  simp only [Option.bind_eq_bind, Option.bind_eq_some] at h
  obtain ⟨d, _, b, _, h⟩ := h
  injection h with h
  exact ⟨_, h.symm⟩

theorem updateChooser_eq_some {s s1 : Sim} {index : Int} {gc bc : Bool}
    (h : updateChooser s index gc bc = some s1) :
    ∃ t, s1 = { s with chooserTable := t } ∧
      (CountersInRange s.chooserTable → CountersInRange t) := by
  by_cases hflags : (gc = true ∧ bc = false) ∨ (bc = true ∧ gc = false)
  · have hread : ∃ old, readAt s.chooserTable index = some old := by
      unfold updateChooser at h
      rcases hflags with ⟨h1, h2⟩ | ⟨h1, h2⟩
      · subst h1 h2
        simp only [Bool.not_false, Bool.and_true, if_true, Option.bind_eq_bind,
          Option.bind_eq_some] at h
        obtain ⟨old, hold, _⟩ := h
        exact ⟨old, hold⟩
      · subst h1 h2
        simp only [Bool.not_false, Bool.and_true, Bool.not_true, Bool.and_false,
          Bool.false_eq_true, if_false, if_true, Option.bind_eq_bind,
          Option.bind_eq_some] at h
        obtain ⟨old, hold, _⟩ := h
        exact ⟨old, hold⟩
    obtain ⟨old, hold⟩ := hread
    rw [updateChooser_eq s index gc bc old hold] at h
    injection h with h
    subst h
    split
    · split
      · exact ⟨_, rfl, fun hc => countersInRange_set _ _ _ hc
          ⟨by have := hc old (readAt_mem hold); omega, by omega⟩⟩
      · exact ⟨s.chooserTable, rfl, id⟩
    · split
      · split
        · exact ⟨_, rfl, fun hc => countersInRange_set _ _ _ hc
            ⟨by omega, by have := hc old (readAt_mem hold); omega⟩⟩
        · exact ⟨s.chooserTable, rfl, id⟩
      · exact ⟨s.chooserTable, rfl, id⟩
  · have h1 : (gc && !bc) = false := by
      cases gc <;> cases bc <;> simp_all
    have h2 : (bc && !gc) = false := by
      cases gc <;> cases bc <;> simp_all
    unfold updateChooser at h
    rw [h1, h2] at h
    simp only [Bool.false_eq_true, if_false] at h
    injection h with h
    exact ⟨s.chooserTable, h.symm, id⟩

/-- The steps of the hybrid branch, when it returns a state. -/
theorem hybridRecord_eq_some {s s1 : Sim} {addr : Nat} {actualOutcome : Bool}
    (h : hybridRecord s addr actualOutcome = some s1) :
    ∃ bi gi ci bp gp c tb tg g tc,
      getBimodalIndex s addr = some bi ∧ getGshareIndex s addr = some gi ∧
      getChooserIndex s addr = some ci ∧
      makeBimodalPrediction s bi = some bp ∧ makeGsharePrediction s gi = some gp ∧
      readAt s.chooserTable ci = some c ∧
      (2 ≤ c → updatePredictor s.gshareTable gi actualOutcome = some tg ∧ tb = s.bimodalTable) ∧
      (c < 2 → updatePredictor s.bimodalTable bi actualOutcome = some tb ∧ tg = s.gshareTable) ∧
      (CountersInRange s.chooserTable → CountersInRange tc) ∧
      s1 = { s with
        mispredictions := s.mispredictions
          + (if (if 2 ≤ c then gp else bp) = actualOutcome then 0 else 1),
        bimodalTable := tb, gshareTable := tg, globalHistoryRegister := g,
        chooserTable := tc } := by
  unfold hybridRecord at h
  simp only [Option.bind_eq_bind, Option.bind_eq_some] at h
  obtain ⟨bi, hbi, gi, hgi, ci, hci, bp, hbp, gp, hgp, c, hc, sm, hsm, c2, hc2, hrest⟩ := h
  have hsm2 := countMisprediction_eq_some hsm
  subst hsm2
  have hcc : c2 = c := by
    have : some c2 = some c := by rw [← hc2, ← hc]
    injection this
  subst hcc
  by_cases h2 : 2 ≤ c2
  · have hge : c2 ≥ 2 := h2
    simp only [hge, if_true, Option.bind_eq_some, Option.some_bind] at hrest
    obtain ⟨tg, htg, sh, hsh, hs1⟩ := hrest
    obtain ⟨g, hg⟩ := updateGlobalHistoryRegister_eq_some hsh
    subst hg
    obtain ⟨tc, htc, hrange⟩ := updateChooser_eq_some hs1
    subst htc
    refine ⟨bi, gi, ci, bp, gp, c2, s.bimodalTable, tg, g, tc, hbi, hgi, hci, hbp, hgp, hc,
      fun _ => ⟨htg, rfl⟩, fun hlt => absurd h2 (by omega), hrange, ?_⟩
    simp [h2]
  · have hge : ¬ c2 ≥ 2 := h2
    simp only [hge, if_false, Option.bind_eq_some, Option.some_bind] at hrest
    obtain ⟨tb, htb, sh, hsh, hs1⟩ := hrest
    obtain ⟨g, hg⟩ := updateGlobalHistoryRegister_eq_some hsh
    subst hg
    obtain ⟨tc, htc, hrange⟩ := updateChooser_eq_some hs1
    subst htc
    refine ⟨bi, gi, ci, bp, gp, c2, tb, s.gshareTable, g, tc, hbi, hgi, hci, hbp, hgp, hc,
      fun hlt => absurd hlt h2, fun _ => ⟨htb, rfl⟩, hrange, ?_⟩
    simp [h2]

/-- The loop body on a state in hybrid mode. -/
theorem processRecord_hybrid {s s1 : Sim} {r : Record} (hb : s.isBimodal = false)
    (hg : s.isGshare = false) (hh : s.isHybrid = true) (h : processRecord s r = some s1) :
    ∃ sh, hybridRecord s r.addr r.actualOutcome = some sh ∧
      s1 = { sh with predictions := sh.predictions + 1 } := by
  unfold processRecord at h
  simp only [hb, hg, hh, Bool.false_eq_true, if_false, if_true, Option.bind_eq_bind,
    Option.bind_eq_some] at h
  obtain ⟨sh, hsh, c, hc, h⟩ := h
  injection h with h
  refine ⟨sh, hsh, ?_⟩
  rw [← h, (checkInt_eq_some hc).1]

/-! ## The hybrid step, when it returns a state -/

/-- The tables after a hybrid step: the table the chooser counter selects is
the result of `updatePredictor`, the other one is untouched. -/
theorem hybridStep_tables {s s1 : Sim} {r : Record} (hb : s.isBimodal = false)
    (hg : s.isGshare = false) (hh : s.isHybrid = true) (hstep : processRecord s r = some s1) :
    ∃ bi gi ci c, getBimodalIndex s r.addr = some bi ∧ getGshareIndex s r.addr = some gi ∧
      getChooserIndex s r.addr = some ci ∧ readAt s.chooserTable ci = some c ∧
      (2 ≤ c → updatePredictor s.gshareTable gi r.actualOutcome = some s1.gshareTable ∧
        s1.bimodalTable = s.bimodalTable) ∧
      (c < 2 → updatePredictor s.bimodalTable bi r.actualOutcome = some s1.bimodalTable ∧
        s1.gshareTable = s.gshareTable) := by
  obtain ⟨sh, hsh, rfl⟩ := processRecord_hybrid hb hg hh hstep
  obtain ⟨bi, gi, ci, bp, gp, c, tb, tg, g, tc, hbi, hgi, hci, _, _, hc, hge, hlt, _, rfl⟩ :=
    hybridRecord_eq_some hsh
  exact ⟨bi, gi, ci, c, hbi, hgi, hci, hc, hge, hlt⟩

/-- The misprediction counter after a hybrid step. -/
theorem hybridStep_mispredictions {s s1 : Sim} {r : Record} (hb : s.isBimodal = false)
    (hg : s.isGshare = false) (hh : s.isHybrid = true) (hstep : processRecord s r = some s1) :
    ∃ bi gi ci bp gp c, getBimodalIndex s r.addr = some bi ∧
      getGshareIndex s r.addr = some gi ∧ getChooserIndex s r.addr = some ci ∧
      makeBimodalPrediction s bi = some bp ∧ makeGsharePrediction s gi = some gp ∧
      readAt s.chooserTable ci = some c ∧
      s1.mispredictions = s.mispredictions
        + (if (if 2 ≤ c then gp else bp) = r.actualOutcome then 0 else 1) := by
  obtain ⟨sh, hsh, rfl⟩ := processRecord_hybrid hb hg hh hstep
  obtain ⟨bi, gi, ci, bp, gp, c, tb, tg, g, tc, hbi, hgi, hci, hbp, hgp, hc, _, _, _, rfl⟩ :=
    hybridRecord_eq_some hsh
  exact ⟨bi, gi, ci, bp, gp, c, hbi, hgi, hci, hbp, hgp, hc, rfl⟩

/-! ## C2: every counter stays in [0,3] -/

theorem countersInRange_nil : CountersInRange [] := by
  intro c h
  cases h

theorem mkTable_countersInRange {num v : Int} {t : List Int} (hv : 0 ≤ v ∧ v ≤ 3)
    (h : mkTable num v = some t) : CountersInRange t := by
  unfold mkTable at h
  split at h
  · injection h with h
    subst h
    intro c hc
    rw [List.eq_of_mem_replicate hc]
    exact hv
  · cases h

/-- The steps of the bimodal branch, when it returns a state. -/
theorem bimodalRecord_eq_some {s s1 : Sim} {addr : Nat} {actualOutcome : Bool}
    (h : bimodalRecord s addr actualOutcome = some s1) :
    ∃ bi bp t, getBimodalIndex s addr = some bi ∧ makeBimodalPrediction s bi = some bp ∧
      updatePredictor s.bimodalTable bi actualOutcome = some t ∧
      s1 = { s with
        mispredictions := s.mispredictions + (if bp = actualOutcome then 0 else 1),
        bimodalTable := t } := by
  unfold bimodalRecord at h
  simp only [Option.bind_eq_bind, Option.bind_eq_some] at h
  obtain ⟨bi, hbi, bp, hbp, sm, hsm, t, ht, h⟩ := h
  have hsm2 := countMisprediction_eq_some hsm
  subst hsm2
  injection h with h
  exact ⟨bi, bp, t, hbi, hbp, ht, h.symm⟩

/-- The steps of the gshare branch, when it returns a state. -/
theorem gshareRecord_eq_some {s s1 : Sim} {addr : Nat} {actualOutcome : Bool}
    (h : gshareRecord s addr actualOutcome = some s1) :
    ∃ gi gp t g, getGshareIndex s addr = some gi ∧ makeGsharePrediction s gi = some gp ∧
      updatePredictor s.gshareTable gi actualOutcome = some t ∧
      updateGlobalHistoryRegister s actualOutcome
        = some { s with globalHistoryRegister := g } ∧
      s1 = { s with
        mispredictions := s.mispredictions + (if gp = actualOutcome then 0 else 1),
        gshareTable := t, globalHistoryRegister := g } := by
  unfold gshareRecord at h
  simp only [Option.bind_eq_bind, Option.bind_eq_some] at h
  obtain ⟨gi, hgi, gp, hgp, sm, hsm, t, ht, h⟩ := h
  have hsm2 := countMisprediction_eq_some hsm
  subst hsm2
  unfold updateGlobalHistoryRegister at h
  simp only [Option.bind_eq_bind, Option.bind_eq_some] at h
  obtain ⟨d, hd, b, hb, h⟩ := h
  injection h with h
  refine ⟨gi, gp, t, (s.globalHistoryRegister >>> 1) ||| toUInt b, hgi, hgp, ht, ?_, h.symm⟩
  unfold updateGlobalHistoryRegister
  simp only [Option.bind_eq_bind, Option.bind_eq_some]
  exact ⟨d, hd, b, hb, rfl⟩

/-- The loop body keeps every counter of the three tables in [0,3]. -/
theorem processRecord_countersInRange {s s1 : Sim} {r : Record}
    (h : processRecord s r = some s1)
    (hinv : CountersInRange s.bimodalTable ∧ CountersInRange s.gshareTable ∧
      CountersInRange s.chooserTable) :
    CountersInRange s1.bimodalTable ∧ CountersInRange s1.gshareTable ∧
      CountersInRange s1.chooserTable := by
  obtain ⟨hbt, hgt, hct⟩ := hinv
  unfold processRecord at h
  simp only [Option.bind_eq_bind, Option.bind_eq_some] at h
  obtain ⟨sb, hsb, c, hc, h⟩ := h
  injection h with h
  subst h
  show CountersInRange sb.bimodalTable ∧ CountersInRange sb.gshareTable ∧
    CountersInRange sb.chooserTable
  by_cases h1 : s.isBimodal = true
  · rw [if_pos h1] at hsb
    obtain ⟨bi, bp, t, _, _, ht, rfl⟩ := bimodalRecord_eq_some hsb
    exact ⟨updatePredictor_countersInRange _ _ _ _ hbt ht, hgt, hct⟩
  · rw [if_neg h1] at hsb
    by_cases h2 : s.isGshare = true
    · rw [if_pos h2] at hsb
      obtain ⟨gi, gp, t, g, _, _, ht, _, rfl⟩ := gshareRecord_eq_some hsb
      exact ⟨hbt, updatePredictor_countersInRange _ _ _ _ hgt ht, hct⟩
    · rw [if_neg h2] at hsb
      by_cases h3 : s.isHybrid = true
      · rw [if_pos h3] at hsb
        obtain ⟨bi, gi, ci, bp, gp, c, tb, tg, g, tc, _, _, _, _, _, _, hge, hlt, hrange, rfl⟩ :=
          hybridRecord_eq_some hsb
        refine ⟨?_, ?_, hrange hct⟩
        · by_cases h2c : 2 ≤ c
          · rw [(hge h2c).2]
            exact hbt
          · exact updatePredictor_countersInRange _ _ _ _ hbt (hlt (by omega)).1
        · by_cases h2c : 2 ≤ c
          · exact updatePredictor_countersInRange _ _ _ _ hgt (hge h2c).1
          · rw [(hlt (by omega)).2]
            exact hgt
      · rw [if_neg h3] at hsb
        injection hsb with hsb
        subst hsb
        exact ⟨hbt, hgt, hct⟩

theorem mainLoop_countersInRange (trace : List Record) (s s1 : Sim)
    (h : mainLoop s trace = some s1)
    (hinv : CountersInRange s.bimodalTable ∧ CountersInRange s.gshareTable ∧
      CountersInRange s.chooserTable) :
    CountersInRange s1.bimodalTable ∧ CountersInRange s1.gshareTable ∧
      CountersInRange s1.chooserTable := by
  induction trace generalizing s with
  | nil =>
    simp only [mainLoop] at h
    injection h with h
    subst h
    exact hinv
  | cons r rest ih =>
    simp only [mainLoop, Option.bind_eq_some] at h
    obtain ⟨s2, hs2, hrest⟩ := h
    exact ih s2 hrest (processRecord_countersInRange hs2 hinv)

theorem mainSetup_countersInRange (cfg : Config) (s : Sim) (h : mainSetup cfg = some s) :
    CountersInRange s.bimodalTable ∧ CountersInRange s.gshareTable ∧
      CountersInRange s.chooserTable := by
  cases cfg with
  | bimodal a2 =>
    simp only [mainSetup, Option.bind_eq_bind, Option.bind_eq_some] at h
    obtain ⟨nb, _, bt, hbt, h⟩ := h
    injection h with h
    subst h
    exact ⟨mkTable_countersInRange ⟨by decide, by decide⟩ hbt, countersInRange_nil,
      countersInRange_nil⟩
  | gshare a1 an =>
    simp only [mainSetup, Option.bind_eq_bind, Option.bind_eq_some] at h
    obtain ⟨ng, _, gt, hgt, h⟩ := h
    injection h with h
    subst h
    exact ⟨countersInRange_nil, mkTable_countersInRange ⟨by decide, by decide⟩ hgt,
      countersInRange_nil⟩
  | hybrid ak a1 an a2 =>
    simp only [mainSetup, Option.bind_eq_bind, Option.bind_eq_some] at h
    obtain ⟨nb, _, ng, _, nc, _, bt, hbt, gt, hgt, ct, hct, h⟩ := h
    injection h with h
    subst h
    exact ⟨mkTable_countersInRange ⟨by decide, by decide⟩ hbt,
      mkTable_countersInRange ⟨by decide, by decide⟩ hgt,
      mkTable_countersInRange ⟨by decide, by decide⟩ hct⟩

/-- C2. For every mode, every configuration and every trace, in every state
reached from the state built by the set-up by processing the records of the
trace one at a time, every counter of the bimodal table, of the gshare table
and of the chooser table has a value in [0,3]. -/
theorem counters_stay_in_range (cfg : Config) (trace : List Record) (s0 s : Sim)
    (hsetup : mainSetup cfg = some s0) (hrun : mainLoop s0 trace = some s) :
    CountersInRange s.bimodalTable ∧ CountersInRange s.gshareTable ∧
      CountersInRange s.chooserTable :=
  mainLoop_countersInRange trace s0 s hrun (mainSetup_countersInRange cfg s0 hsetup)

/-- C2 on the hybrid configuration `k = 1, m1 = 2, n = 1, m2 = 1` and a trace
of four records that moves a bimodal counter down to 0 and back to 1 and a
chooser counter down to 0 and back to 1. -/
theorem counters_stay_in_range_witness :
    mainSetup (.hybrid 1 2 1 1)
      = some { hybridExample with bimodalTable := [2, 2], chooserTable := [1, 1] } ∧
    mainLoop { hybridExample with bimodalTable := [2, 2], chooserTable := [1, 1] }
        [⟨4, false⟩, ⟨4, false⟩, ⟨4, false⟩, ⟨12, true⟩]
      = some { hybridExample with
          chooserTable := [1, 1], predictions := 4, mispredictions := 2,
          globalHistoryRegister := 1 } ∧
    CountersInRange [2, 1] ∧ CountersInRange [2, 2, 2, 2] ∧ CountersInRange [1, 1] :=
  ⟨by decide, by decide,
    counters_stay_in_range (.hybrid 1 2 1 1) [⟨4, false⟩, ⟨4, false⟩, ⟨4, false⟩, ⟨12, true⟩]
      { hybridExample with bimodalTable := [2, 2], chooserTable := [1, 1] }
      { hybridExample with
          chooserTable := [1, 1], predictions := 4, mispredictions := 2,
          globalHistoryRegister := 1 }
      (by decide) (by decide)⟩

/-! ## The hybrid branch is defined on every well-formed state -/

theorem inRange_natCast (table : List Int) (i : Nat) (h : i < table.length) :
    InRange table (i : Int) := by
  refine ⟨by omega, ?_⟩
  rw [Int.toNat_ofNat]
  exact h

theorem countMisprediction_defined (s : Sim) (prediction actualOutcome : Bool)
    (h0 : INT_MIN ≤ s.mispredictions) (h1 : s.mispredictions < INT_MAX) :
    ∃ m, countMisprediction s prediction actualOutcome = some { s with mispredictions := m } := by
  unfold countMisprediction
  by_cases hp : (prediction != actualOutcome) = true
  · rw [if_pos hp, checkInt_of_range _ (by omega) (by omega)]
    exact ⟨_, rfl⟩
  · rw [if_neg hp]
    exact ⟨s.mispredictions, rfl⟩

theorem updatePredictor_defined (table : List Int) (index : Int) (outcome : Bool)
    (h : InRange table index) : ∃ t, updatePredictor table index outcome = some t :=
  ⟨_, updatePredictor_eq table index outcome _ (readAt_of_inRange table index h)⟩

/-- On a state in hybrid mode that is `HybridReady`, the loop body returns a
state for every record: no shift, overflow or table access of the hybrid
branch is undefined. -/
theorem processRecord_hybrid_defined (s : Sim) (r : Record) (k m1 n m2 : Nat)
    (hb : s.isBimodal = false) (hg : s.isGshare = false) (hh : s.isHybrid = true)
    (hready : HybridReady s k m1 n m2) : ∃ s1, processRecord s r = some s1 := by
  obtain ⟨hk, hm1, hn, hnb, hk30, hn1, hle, h30, hm2, hlb, hlg, hlc, hmis0, hmis1, hp0, hp1⟩ :=
    hready
  obtain ⟨d, rfl⟩ : ∃ d, m1 = d + n := ⟨m1 - n, by omega⟩
  have hbi := getBimodalIndex_eq s m2 r.addr hnb hm2
  have hci := getChooserIndex_eq s k r.addr hk hk30
  have hgi := getGshareIndex_eq s d n r.addr hm1 hn h30
  have hgilt := gshare_value_lt ((r.addr >>> 2) % 2 ^ (d + n)) s.globalHistoryRegister d n
    (Nat.mod_lt _ (Nat.two_pow_pos _))
  generalize (((r.addr >>> 2) % 2 ^ (d + n)) / 2 ^ d ^^^ s.globalHistoryRegister % 2 ^ n) * 2 ^ d
    + ((r.addr >>> 2) % 2 ^ (d + n)) % 2 ^ d = gi at hgi hgilt
  have hrb : InRange s.bimodalTable (((r.addr >>> 2) % 2 ^ m2 : Nat) : Int) :=
    inRange_natCast _ _ (by rw [hlb]; exact Nat.mod_lt _ (Nat.two_pow_pos m2))
  have hrc : InRange s.chooserTable (((r.addr >>> 2) % 2 ^ k : Nat) : Int) :=
    inRange_natCast _ _ (by rw [hlc]; exact Nat.mod_lt _ (Nat.two_pow_pos k))
  have hrg : InRange s.gshareTable (gi : Int) :=
    inRange_natCast _ _ (by rw [hlg]; exact hgilt)
  have hreadb := readAt_of_inRange _ _ hrb
  have hreadg := readAt_of_inRange _ _ hrg
  have hreadc := readAt_of_inRange _ _ hrc
  generalize s.chooserTable.get ⟨_, hrc.2⟩ = c at hreadc
  generalize s.bimodalTable.get ⟨_, hrb.2⟩ = cb at hreadb
  generalize s.gshareTable.get ⟨_, hrg.2⟩ = cg at hreadg
  obtain ⟨m, hm⟩ := countMisprediction_defined s
    (if c ≥ 2 then decide (cg ≥ 2) else decide (cb ≥ 2)) r.actualOutcome hmis0 hmis1
  obtain ⟨tg, htg⟩ := updatePredictor_defined s.gshareTable gi r.actualOutcome hrg
  obtain ⟨tb, htb⟩ := updatePredictor_defined s.bimodalTable _ r.actualOutcome hrb
  have hhyb : ∃ sh, hybridRecord s r.addr r.actualOutcome = some sh ∧
      sh.predictions = s.predictions := by
    unfold hybridRecord makeBimodalPrediction makeGsharePrediction
    simp only [hbi, hgi, hci, hreadb, hreadg, hreadc, hm, Option.bind_eq_bind,
      Option.some_bind]
    by_cases h2 : c ≥ 2
    · simp only [h2, if_true, htg, Option.some_bind]
      rw [updateGlobalHistoryRegister_eq _ n r.actualOutcome _ hn1 (by omega)]
      · simp only [Option.some_bind]
        rw [updateChooser_eq _ _ _ _ c _]
        · refine ⟨_, rfl, ?_⟩
          split
          · split <;> rfl
          · split
            · split <;> rfl
            · rfl
        · exact hreadc
      · exact hn
    · simp only [h2, if_false, htb, Option.some_bind]
      rw [updateGlobalHistoryRegister_eq _ n r.actualOutcome _ hn1 (by omega)]
      · simp only [Option.some_bind]
        rw [updateChooser_eq _ _ _ _ c _]
        · refine ⟨_, rfl, ?_⟩
          split
          · split <;> rfl
          · split
            · split <;> rfl
            · rfl
        · exact hreadc
      · exact hn
  obtain ⟨sh, hsh, hpred⟩ := hhyb
  unfold processRecord
  simp only [hb, hg, hh, Bool.false_eq_true, if_false, if_true, hsh, Option.some_bind]
  rw [hpred, checkInt_of_range _ (by omega) (by omega)]
  exact ⟨_, rfl⟩

/-! ## C11: the gshare index without history bits -/

/-- C11, as amended. For `n = 0`, every width `m1 ≤ 30`, every address and
every history register value, `getGshareIndex` returns
`(addr >> 2) mod 2^m1`, whatever the history register holds; this is the
value `getBimodalIndex` returns for a bimodal table of `2^m1` entries. -/
theorem getGshareIndex_zero_history (s sb : Sim) (m1 addr h : Nat) (hm1 : s.m1 = (m1 : Int))
    (hn : s.n = 0) (h30 : m1 ≤ 30) (hsb : sb.numBimodalEntries = ((2 ^ m1 : Nat) : Int)) :
    getGshareIndex { s with globalHistoryRegister := h } addr
      = some (((addr >>> 2) % 2 ^ m1 : Nat) : Int) ∧
    getGshareIndex { s with globalHistoryRegister := h } addr = getBimodalIndex sb addr := by
  have hlt : (addr >>> 2) % 2 ^ m1 < 2 ^ m1 := Nat.mod_lt _ (Nat.two_pow_pos m1)
  have hval : getGshareIndex { s with globalHistoryRegister := h } addr
      = some (((addr >>> 2) % 2 ^ m1 : Nat) : Int) := by
    rw [getGshareIndex_eq { s with globalHistoryRegister := h } m1 0 addr hm1 hn h30]
    congr 2
    show (((addr >>> 2) % 2 ^ (m1 + 0)) / 2 ^ m1 ^^^ h % 2 ^ 0) * 2 ^ m1
      + ((addr >>> 2) % 2 ^ (m1 + 0)) % 2 ^ m1 = (addr >>> 2) % 2 ^ m1
    rw [Nat.add_zero, Nat.div_eq_of_lt hlt, Nat.pow_zero, Nat.mod_one, Nat.mod_mod]
    simp
  exact ⟨hval, by rw [hval, getBimodalIndex_eq sb m1 addr hsb h30]⟩

/-- C11 at `m1 = 3`, address `0x1234` and history register `0b101`: the index
is `(0x1234 >> 2) mod 8 = 5`, as for a bimodal table of 8 entries. -/
theorem getGshareIndex_zero_history_witness :
    getGshareIndex { ({ globals0 with m1 := 3 } : Sim) with globalHistoryRegister := 5 } 4660
      = some 5 ∧
    (getGshareIndex { ({ globals0 with m1 := 3 } : Sim) with globalHistoryRegister := 5 } 4660
        = some (((4660 >>> 2) % 2 ^ 3 : Nat) : Int) ∧
      getGshareIndex { ({ globals0 with m1 := 3 } : Sim) with globalHistoryRegister := 5 } 4660
        = getBimodalIndex { globals0 with numBimodalEntries := 8 } 4660) :=
  ⟨by decide,
    getGshareIndex_zero_history { globals0 with m1 := 3 } { globals0 with numBimodalEntries := 8 }
      3 4660 5 (by decide) (by decide) (by decide) (by decide)⟩

/-- C11 as stated fails at `m1 = 33`, `n = 0` and address `2^34`: the value
`(addr >> 2) mod 2^33` is `2^32`, above `INT_MAX` and so outside the return
type of the function; the shift `1 << 33` of line 24 has no defined value and
the embedding yields `none`. -/
theorem getGshareIndex_zero_history_wide_counterexample :
    ({ globals0 with m1 := 33 } : Sim).n = 0 ∧
    getGshareIndex { globals0 with m1 := 33 } 17179869184 = none ∧
    INT_MAX < (((17179869184 >>> 2) % 2 ^ 33 : Nat) : Int) ∧
    getGshareIndex { globals0 with m1 := 33 } 17179869184
      ≠ some (((17179869184 >>> 2) % 2 ^ 33 : Nat) : Int) := by
  refine ⟨rfl, by decide, by decide, by decide⟩

/-! ## C12: the gshare index as one XOR -/

/-- Placing the XOR of the upper field above the untouched lower field is the
XOR of the whole word with the history shifted to the upper field. -/
theorem concat_xor_eq (pc hist d : Nat) :
    (pc / 2 ^ d ^^^ hist) * 2 ^ d + pc % 2 ^ d = pc ^^^ hist * 2 ^ d := by
  have hlow : pc % 2 ^ d < 2 ^ d := Nat.mod_lt _ (Nat.two_pow_pos d)
  rw [← (fields_of_concat (pc / 2 ^ d ^^^ hist) (pc % 2 ^ d) d hlow).1]
  apply Nat.eq_of_testBit_eq
  intro i
  rw [Nat.testBit_or, ← Nat.shiftLeft_eq, ← Nat.shiftLeft_eq, Nat.testBit_shiftLeft,
    Nat.testBit_xor, Nat.testBit_xor, Nat.testBit_shiftLeft, Nat.testBit_mod_two_pow,
    ← Nat.shiftRight_eq_div_pow, Nat.testBit_shiftRight]
  by_cases hi : i < d
  · have hge : ¬ i ≥ d := by omega
    simp [hi, hge]
  · have hge : i ≥ d := by omega
    have e : d + (i - d) = i := by omega
    simp [hi, hge, e]

/-- C12, as amended. For all widths with `n ≤ m1 ≤ 30`, every address and every
history register value `h`, `getGshareIndex` returns
`pcIndex XOR ((h mod 2^n) * 2^(m1-n))` with `pcIndex = (addr >> 2) mod 2^m1`;
when `n = m1` this is `pcIndex XOR (h mod 2^n)`. -/
theorem getGshareIndex_xor (s : Sim) (m1 n addr : Nat) (hm1 : s.m1 = (m1 : Int))
    (hn : s.n = (n : Int)) (hle : n ≤ m1) (h30 : m1 ≤ 30) :
    getGshareIndex s addr = some
      (((addr >>> 2) % 2 ^ m1 ^^^ (s.globalHistoryRegister % 2 ^ n) * 2 ^ (m1 - n) : Nat) : Int) ∧
    (n = m1 → getGshareIndex s addr = some
      (((addr >>> 2) % 2 ^ m1 ^^^ s.globalHistoryRegister % 2 ^ n : Nat) : Int)) := by
  obtain ⟨d, rfl⟩ : ∃ d, m1 = d + n := ⟨m1 - n, by omega⟩
  have hd : d + n - n = d := by omega
  have hval : getGshareIndex s addr = some
      (((addr >>> 2) % 2 ^ (d + n) ^^^ (s.globalHistoryRegister % 2 ^ n) * 2 ^ d : Nat) : Int) := by
    rw [getGshareIndex_eq s d n addr hm1 hn h30, concat_xor_eq]
  rw [hd]
  refine ⟨hval, ?_⟩
  intro hnm
  have hd0 : d = 0 := by omega
  rw [hval, hd0]
  simp

/-- C12 at `m1 = 4`, `n = 2`, history register `0b111` and address `0x2C`:
`pcIndex = 0b1011`, the history field is `0b11` shifted by 2, the index is
`0b1011 XOR 0b1100 = 0b0111`. -/
theorem getGshareIndex_xor_witness :
    getGshareIndex { globals0 with m1 := 4, n := 2, globalHistoryRegister := 7 } 44 = some 7 ∧
    (getGshareIndex { globals0 with m1 := 4, n := 2, globalHistoryRegister := 7 } 44 = some
      (((44 >>> 2) % 2 ^ 4
        ^^^ (({ globals0 with m1 := 4, n := 2, globalHistoryRegister := 7 } : Sim).globalHistoryRegister
          % 2 ^ 2) * 2 ^ (4 - 2) : Nat) : Int) ∧
    (2 = 4 → getGshareIndex { globals0 with m1 := 4, n := 2, globalHistoryRegister := 7 } 44 = some
      (((44 >>> 2) % 2 ^ 4
        ^^^ ({ globals0 with m1 := 4, n := 2, globalHistoryRegister := 7 } : Sim).globalHistoryRegister
          % 2 ^ 2 : Nat) : Int))) :=
  ⟨by decide,
    getGshareIndex_xor { globals0 with m1 := 4, n := 2, globalHistoryRegister := 7 } 4 2 44
      (by decide) (by decide) (by decide) (by decide)⟩

/-- C12 as stated fails at `n = m1 = 33`, history register `2^31` and address
0: there `pcIndex` is 0 and the claimed index `pcIndex XOR (h mod 2^33)` is
`2^31`, above `INT_MAX` and so outside the return type of the function; the
shifts by 33 of lines 24 and 25 have no defined value and the embedding
yields `none`. -/
theorem getGshareIndex_xor_wide_counterexample :
    (33 : Nat) ≤ 33 ∧
    getGshareIndex { globals0 with m1 := 33, n := 33, globalHistoryRegister := 2147483648 } 0
      = none ∧
    INT_MAX < (((0 >>> 2) % 2 ^ 33 ^^^ (2147483648 % 2 ^ 33) * 2 ^ (33 - 33) : Nat) : Int) ∧
    getGshareIndex { globals0 with m1 := 33, n := 33, globalHistoryRegister := 2147483648 } 0
      ≠ some (((0 >>> 2) % 2 ^ 33
        ^^^ (({ globals0 with m1 := 33, n := 33, globalHistoryRegister := 2147483648 } : Sim).globalHistoryRegister
          % 2 ^ 33) * 2 ^ (33 - 33) : Nat) : Int) := by
  refine ⟨by decide, by decide, by decide, by decide⟩

/-! ## C13: the bimodal index depends on bits 2 to m2+1 of the address only -/

/-- Flipping bit `i` of an address, for `i` below 2 or at least `m + 2`, keeps
the low `m` bits of `addr >> 2`. -/
theorem flip_bit_index (a m i : Nat) (hi : i < 2 ∨ m + 2 ≤ i) :
    ((a ^^^ 2 ^ i) >>> 2) % 2 ^ m = (a >>> 2) % 2 ^ m := by
  apply Nat.eq_of_testBit_eq
  intro j
  rw [Nat.testBit_mod_two_pow, Nat.testBit_mod_two_pow, Nat.testBit_shiftRight,
    Nat.testBit_shiftRight, Nat.testBit_xor, Nat.testBit_two_pow]
  by_cases hj : j < m
  · have hne : ¬ (i = 2 + j) := by omega
    simp [hj, hne]
  · simp [hj]

/-- C13. For every width `m2` and every state whose `numBimodalEntries` (an
`int`) holds the table size `2^m2`: `getBimodalIndex` returns an index for
every address; two addresses `a` and `b` for which `a >> 2` and `b >> 2` agree
on their low `m2` bits get the same index; and flipping one of the two
alignment bits, or any address bit at position `m2 + 2` or higher, does not
change the index. -/
theorem getBimodalIndex_low_bits (s : Sim) (m2 a b i : Nat)
    (hsize : s.numBimodalEntries = ((2 ^ m2 : Nat) : Int))
    (hint : s.numBimodalEntries ≤ INT_MAX) :
    (∃ idx, getBimodalIndex s a = some idx) ∧
    ((a >>> 2) % 2 ^ m2 = (b >>> 2) % 2 ^ m2 → getBimodalIndex s a = getBimodalIndex s b) ∧
    (i < 2 ∨ m2 + 2 ≤ i → getBimodalIndex s (a ^^^ 2 ^ i) = getBimodalIndex s a) := by
  have hm : m2 ≤ 30 := le_30_of_two_pow_le m2 (hsize ▸ hint)
  refine ⟨⟨_, getBimodalIndex_eq s m2 a hsize hm⟩, ?_, ?_⟩
  · intro hab
    rw [getBimodalIndex_eq s m2 a hsize hm, getBimodalIndex_eq s m2 b hsize hm, hab]
  · intro hi
    rw [getBimodalIndex_eq s m2 a hsize hm, getBimodalIndex_eq s m2 (a ^^^ 2 ^ i) hsize hm,
      flip_bit_index a m2 i hi]

/-- C13 with a table of 4 entries (`m2 = 2`): the addresses `0x1004` and
`0xABC7` agree on bits 2 and 3 and both get index 1, and flipping bit 4 of
`0x1004` keeps the index. -/
theorem getBimodalIndex_low_bits_witness :
    getBimodalIndex { globals0 with numBimodalEntries := 4 } 4100 = some 1 ∧
    getBimodalIndex { globals0 with numBimodalEntries := 4 } 43975 = some 1 ∧
    getBimodalIndex { globals0 with numBimodalEntries := 4 } (4100 ^^^ 2 ^ 4) = some 1 ∧
    (4100 >>> 2) % 2 ^ 2 = (43975 >>> 2) % 2 ^ 2 ∧ (4 < 2 ∨ 2 + 2 ≤ 4) ∧
    ((∃ idx, getBimodalIndex { globals0 with numBimodalEntries := 4 } 4100 = some idx) ∧
      ((4100 >>> 2) % 2 ^ 2 = (43975 >>> 2) % 2 ^ 2 →
        getBimodalIndex { globals0 with numBimodalEntries := 4 } 4100
          = getBimodalIndex { globals0 with numBimodalEntries := 4 } 43975) ∧
      (4 < 2 ∨ 2 + 2 ≤ 4 →
        getBimodalIndex { globals0 with numBimodalEntries := 4 } (4100 ^^^ 2 ^ 4)
          = getBimodalIndex { globals0 with numBimodalEntries := 4 } 4100)) :=
  ⟨by decide, by decide, by decide, by decide, by decide,
    getBimodalIndex_low_bits { globals0 with numBimodalEntries := 4 } 2 4100 43975 4
      (by decide) (by decide)⟩

/-! ## C14: the end-to-end bimodal example -/

/-- C14. The run in bimodal mode with `m2 = 2` on the trace
`(0x1000, taken), (0x1000, taken), (0x1000, not taken), (0x1004, not taken)`
ends with `predictions = 4`, `mispredictions = 2` (so twice the
mispredictions is the number of predictions) and the bimodal table
`[2, 1, 2, 2]`. -/
theorem bimodal_end_to_end :
    ∃ s, simulate (.bimodal 2)
        [⟨0x1000, true⟩, ⟨0x1000, true⟩, ⟨0x1000, false⟩, ⟨0x1004, false⟩] = some s ∧
      s.predictions = 4 ∧ s.mispredictions = 2 ∧ 2 * s.mispredictions = s.predictions ∧
      s.bimodalTable = [2, 1, 2, 2] :=
  ⟨{ globals0 with
      isBimodal := true, m2 := 2, numBimodalEntries := 4, bimodalTable := [2, 1, 2, 2],
      predictions := 4, mispredictions := 2 },
    by decide, rfl, rfl, by decide, rfl⟩

/-! ## The history register after one record -/

/-- The call `updateGlobalHistoryRegister` reads `n` and the register only. -/
theorem updateGlobalHistoryRegister_congr (s s2 sh : Sim) (outcome : Bool)
    (h : updateGlobalHistoryRegister s2 outcome = some sh) (hn : s2.n = s.n)
    (hg : s2.globalHistoryRegister = s.globalHistoryRegister) :
    updateGlobalHistoryRegister s outcome
      = some { s with globalHistoryRegister := sh.globalHistoryRegister } := by
  unfold updateGlobalHistoryRegister at h ⊢
  simp only [Option.bind_eq_bind, Option.bind_eq_some] at h ⊢
  obtain ⟨d, hd, b, hb, h⟩ := h
  injection h with h
  subst h
  rw [hn] at hd
  exact ⟨d, hd, b, hb, by rw [hg]⟩

/-- The register after the hybrid branch is the one `updateGlobalHistoryRegister`
computes from the state before the record. -/
theorem hybridRecord_history {s s1 : Sim} {addr : Nat} {actualOutcome : Bool}
    (h : hybridRecord s addr actualOutcome = some s1) :
    updateGlobalHistoryRegister s actualOutcome
      = some { s with globalHistoryRegister := s1.globalHistoryRegister } := by
  unfold hybridRecord at h
  simp only [Option.bind_eq_bind, Option.bind_eq_some] at h
  obtain ⟨bi, -, gi, -, ci, -, bp, -, gp, -, c, -, sm, hsm, c2, -, hrest⟩ := h
  have hsm2 := countMisprediction_eq_some hsm
  subst hsm2
  by_cases h2 : c2 ≥ 2
  · simp only [h2, if_true, Option.bind_eq_some, Option.some_bind] at hrest
    obtain ⟨tg, -, sh, hsh, hs1⟩ := hrest
    obtain ⟨tc, htc, -⟩ := updateChooser_eq_some hs1
    subst htc
    exact updateGlobalHistoryRegister_congr s _ sh actualOutcome hsh rfl rfl
  · simp only [h2, if_false, Option.bind_eq_some, Option.some_bind] at hrest
    obtain ⟨tb, -, sh, hsh, hs1⟩ := hrest
    obtain ⟨tc, htc, -⟩ := updateChooser_eq_some hs1
    subst htc
    exact updateGlobalHistoryRegister_congr s _ sh actualOutcome hsh rfl rfl

/-- The state the loop body returns, in terms of the state its branch
returns. -/
theorem processRecord_eq_some {s s1 : Sim} {r : Record} (h : processRecord s r = some s1) :
    ∃ sb, (if s.isBimodal then bimodalRecord s r.addr r.actualOutcome
        else if s.isGshare then gshareRecord s r.addr r.actualOutcome
        else if s.isHybrid then hybridRecord s r.addr r.actualOutcome
        else some s) = some sb ∧
      s1 = { sb with predictions := sb.predictions + 1 } ∧ sb.predictions + 1 ≤ INT_MAX := by
  unfold processRecord at h
  simp only [Option.bind_eq_some] at h
  obtain ⟨sb, hsb, c, hc, h⟩ := h
  injection h with h
  have hcc := checkInt_eq_some hc
  refine ⟨sb, hsb, ?_, hcc.2.2⟩
  rw [← h, hcc.1]

/-- The history register after a step that returns a state: one call of
`updateGlobalHistoryRegister` in the gshare and hybrid branches, no change of
the register, the gshare table and the chooser table in the bimodal branch. -/
theorem step_history {s s1 : Sim} {r : Record} (hstep : processRecord s r = some s1) :
    (s.isBimodal = false → s.isGshare = true ∨ s.isHybrid = true →
      updateGlobalHistoryRegister s r.actualOutcome
        = some { s with globalHistoryRegister := s1.globalHistoryRegister }) ∧
    (s.isBimodal = true →
      s1.globalHistoryRegister = s.globalHistoryRegister ∧ s1.gshareTable = s.gshareTable ∧
      s1.chooserTable = s.chooserTable) := by
  obtain ⟨sb, hsb, rfl, -⟩ := processRecord_eq_some hstep
  constructor
  · intro hb hmode
    rw [hb] at hsb
    simp only [Bool.false_eq_true, if_false] at hsb
    by_cases hg : s.isGshare = true
    · rw [if_pos hg] at hsb
      obtain ⟨gi, gp, t, g, -, -, -, hupd, rfl⟩ := gshareRecord_eq_some hsb
      exact hupd
    · rw [if_neg hg] at hsb
      have hh : s.isHybrid = true := by
        rcases hmode with h | h
        · exact absurd h hg
        · exact h
      rw [if_pos hh] at hsb
      have hhist := hybridRecord_history hsb
      exact hhist
  · intro hb
    rw [if_pos hb] at hsb
    obtain ⟨bi, bp, t, -, -, -, rfl⟩ := bimodalRecord_eq_some hsb
    exact ⟨rfl, rfl, rfl⟩

/-! ## C17: the state the set-up builds -/

theorem mkTable_natCast (m : Nat) (v : Int) :
    mkTable ((2 ^ m : Nat) : Int) v = some (List.replicate (2 ^ m) v) := by
  unfold mkTable
  rw [if_pos (Int.ofNat_nonneg _), Int.toNat_ofNat]

theorem toInt_width (m : Nat) (h : m ≤ 30) : toInt (m : Int) = (m : Int) :=
  toInt_natCast m (by omega)

/-- The state the set-up builds in bimodal mode for a width of at most 30. -/
theorem mainSetup_bimodal (m2 : Nat) (h2 : m2 ≤ 30) :
    mainSetup (.bimodal m2) = some { globals0 with
      isBimodal := true, m2 := (m2 : Int), numBimodalEntries := ((2 ^ m2 : Nat) : Int),
      bimodalTable := List.replicate (2 ^ m2) 2 } := by
  simp only [mainSetup, toInt_width m2 h2, shlInt_one m2 h2, mkTable_natCast,
    Option.bind_eq_bind, Option.some_bind]

/-- The state the set-up builds in gshare mode for a table width of at most 30
and any history width. -/
theorem mainSetup_gshare (m1 n : Nat) (h1 : m1 ≤ 30) :
    mainSetup (.gshare m1 n) = some { globals0 with
      isGshare := true, m1 := (m1 : Int), n := toInt (n : Int),
      numGshareEntries := ((2 ^ m1 : Nat) : Int), gshareTable := List.replicate (2 ^ m1) 2 } := by
  simp only [mainSetup, toInt_width m1 h1, shlInt_one m1 h1,
    mkTable_natCast, Option.bind_eq_bind, Option.some_bind]
  rfl

/-- The state the set-up builds in hybrid mode for table widths of at most 30
and any history width. -/
theorem mainSetup_hybrid (k m1 n m2 : Nat) (hk : k ≤ 30) (h1 : m1 ≤ 30) (h2 : m2 ≤ 30) :
    mainSetup (.hybrid k m1 n m2) = some { globals0 with
      isHybrid := true, k := (k : Int), m1 := (m1 : Int), n := toInt (n : Int), m2 := (m2 : Int),
      numBimodalEntries := ((2 ^ m2 : Nat) : Int), numGshareEntries := ((2 ^ m1 : Nat) : Int),
      numChooserEntries := ((2 ^ k : Nat) : Int),
      bimodalTable := List.replicate (2 ^ m2) 2, gshareTable := List.replicate (2 ^ m1) 2,
      chooserTable := List.replicate (2 ^ k) 1 } := by
  simp only [mainSetup, toInt_width k hk, toInt_width m1 h1, toInt_width m2 h2,
    shlInt_one k hk, shlInt_one m1 h1, shlInt_one m2 h2, mkTable_natCast,
    Option.bind_eq_bind, Option.some_bind]
  rfl

/-- C17, as amended. For every accepted configuration whose table widths are
at most 30, the set-up returns an
initial state that has: in bimodal and hybrid mode a bimodal table of exactly
`2^m2` counters all equal to 2; in gshare and hybrid mode a gshare table of
exactly `2^m1` counters all equal to 2; in hybrid mode a chooser table of
exactly `2^k` counters all equal to 1; and in every mode a history register
equal to 0 and both statistics counters equal to 0. -/
theorem mainSetup_spec (k m1 n m2 : Nat) (hk : k ≤ 30) (h1 : m1 ≤ 30) (h2 : m2 ≤ 30) :
    (∃ s0, mainSetup (.bimodal m2) = some s0 ∧
      s0.bimodalTable.length = 2 ^ m2 ∧ (∀ c ∈ s0.bimodalTable, c = 2) ∧
      s0.globalHistoryRegister = 0 ∧ s0.predictions = 0 ∧ s0.mispredictions = 0) ∧
    (∃ s0, mainSetup (.gshare m1 n) = some s0 ∧
      s0.gshareTable.length = 2 ^ m1 ∧ (∀ c ∈ s0.gshareTable, c = 2) ∧
      s0.globalHistoryRegister = 0 ∧ s0.predictions = 0 ∧ s0.mispredictions = 0) ∧
    (∃ s0, mainSetup (.hybrid k m1 n m2) = some s0 ∧
      s0.bimodalTable.length = 2 ^ m2 ∧ (∀ c ∈ s0.bimodalTable, c = 2) ∧
      s0.gshareTable.length = 2 ^ m1 ∧ (∀ c ∈ s0.gshareTable, c = 2) ∧
      s0.chooserTable.length = 2 ^ k ∧ (∀ c ∈ s0.chooserTable, c = 1) ∧
      s0.globalHistoryRegister = 0 ∧ s0.predictions = 0 ∧ s0.mispredictions = 0) := by
  refine ⟨⟨_, mainSetup_bimodal m2 h2, ?_, ?_, rfl, rfl, rfl⟩,
    ⟨_, mainSetup_gshare m1 n h1, ?_, ?_, rfl, rfl, rfl⟩,
    ⟨_, mainSetup_hybrid k m1 n m2 hk h1 h2, ?_, ?_, ?_, ?_, ?_, ?_, rfl, rfl, rfl⟩⟩
  · exact List.length_replicate _ _
  · exact fun c hc => List.eq_of_mem_replicate hc
  · exact List.length_replicate _ _
  · exact fun c hc => List.eq_of_mem_replicate hc
  · exact List.length_replicate _ _
  · exact fun c hc => List.eq_of_mem_replicate hc
  · exact List.length_replicate _ _
  · exact fun c hc => List.eq_of_mem_replicate hc
  · exact List.length_replicate _ _
  · exact fun c hc => List.eq_of_mem_replicate hc

/-- C17 at the widths `k = 1`, `m1 = 2`, `n = 1`, `m2 = 1`: the hybrid set-up
builds tables of 2, 4 and 2 counters. -/
theorem mainSetup_spec_witness :
    mainSetup (.hybrid 1 2 1 1)
      = some { hybridExample with bimodalTable := [2, 2], chooserTable := [1, 1] } ∧
    ((∃ s0, mainSetup (.bimodal 1) = some s0 ∧
      s0.bimodalTable.length = 2 ^ 1 ∧ (∀ c ∈ s0.bimodalTable, c = 2) ∧
      s0.globalHistoryRegister = 0 ∧ s0.predictions = 0 ∧ s0.mispredictions = 0) ∧
    (∃ s0, mainSetup (.gshare 2 1) = some s0 ∧
      s0.gshareTable.length = 2 ^ 2 ∧ (∀ c ∈ s0.gshareTable, c = 2) ∧
      s0.globalHistoryRegister = 0 ∧ s0.predictions = 0 ∧ s0.mispredictions = 0) ∧
    (∃ s0, mainSetup (.hybrid 1 2 1 1) = some s0 ∧
      s0.bimodalTable.length = 2 ^ 1 ∧ (∀ c ∈ s0.bimodalTable, c = 2) ∧
      s0.gshareTable.length = 2 ^ 2 ∧ (∀ c ∈ s0.gshareTable, c = 2) ∧
      s0.chooserTable.length = 2 ^ 1 ∧ (∀ c ∈ s0.chooserTable, c = 1) ∧
      s0.globalHistoryRegister = 0 ∧ s0.predictions = 0 ∧ s0.mispredictions = 0)) :=
  ⟨by decide, mainSetup_spec 1 2 1 1 (by decide) (by decide) (by decide)⟩

/-- C17 as stated fails for the accepted configuration `bimodal 31`: the table
size `1 << 31` is `INT_MIN`, a negative `int`, so the construction of the
vector throws and the set-up ends without an initial state; no table of
`2^31` counters is built. -/
theorem mainSetup_wide_counterexample :
    shlInt 1 (toInt 31) = some INT_MIN ∧ mkTable INT_MIN 2 = none ∧
    mainSetup (.bimodal 31) = none ∧
    ¬ ∃ s0, mainSetup (.bimodal 31) = some s0 ∧ s0.bimodalTable.length = 2 ^ 31 := by
  have hnone : mainSetup (.bimodal 31) = none := by decide
  refine ⟨by decide, by decide, hnone, ?_⟩
  rintro ⟨s0, h, _⟩
  rw [hnone] at h
  cases h

/-! ## C18: the argument dispatch -/

/-- The dispatch accepts exactly the three shapes of its conditions. -/
theorem parseArguments_eq_none (strtoul : String → Nat) (argv : List String) :
    parseArguments strtoul argv = none ↔
      ¬ ((argv.length = 4 ∧ argv[1]? = some "bimodal") ∨
        (argv.length = 5 ∧ argv[1]? = some "gshare") ∨
        (argv.length = 7 ∧ argv[1]? = some "hybrid")) := by
  unfold parseArguments
  by_cases h4 : argv.length = 4 ∧ argv[1]? = some "bimodal"
  · simp [h4]
  · by_cases h5 : argv.length = 5 ∧ argv[1]? = some "gshare"
    · simp [h4, h5]
    · by_cases h7 : argv.length = 7 ∧ argv[1]? = some "hybrid"
      · simp [h4, h5, h7]
      · rw [if_neg h4, if_neg h5, if_neg h7]
        simp only [true_iff]
        rintro (h | h | h)
        · exact h4 h
        · exact h5 h
        · exact h7 h

/-- C18, as amended. The argument dispatch of `main` accepts exactly three
shapes: four arguments with the mode name `bimodal`, five with `gshare`, seven
with `hybrid`; every other combination of argument count and mode name ends
the run with failure, before any table is built or any record is processed.
An accepted shape is run with the values `strtoul` returns for its numeric
arguments, whatever they are: zero widths and `n > m1` are not rejected. -/
theorem mainRun_dispatch (strtoul : String → Nat) (argv : List String) (trace : List Record) :
    (mainRun strtoul argv trace = .failure ↔
      ¬ ((argv.length = 4 ∧ argv[1]? = some "bimodal") ∨
        (argv.length = 5 ∧ argv[1]? = some "gshare") ∨
        (argv.length = 7 ∧ argv[1]? = some "hybrid"))) ∧
    (∀ p a2 t, argv = [p, "bimodal", a2, t] →
      mainRun strtoul argv trace = .ran (simulate (.bimodal (strtoul a2)) trace)) ∧
    (∀ p a1 an t, argv = [p, "gshare", a1, an, t] →
      mainRun strtoul argv trace
        = .ran (simulate (.gshare (strtoul a1) (strtoul an)) trace)) ∧
    (∀ p ak a1 an a2 t, argv = [p, "hybrid", ak, a1, an, a2, t] →
      mainRun strtoul argv trace
        = .ran (simulate (.hybrid (strtoul ak) (strtoul a1) (strtoul an) (strtoul a2)) trace)) := by
  refine ⟨?_, ?_, ?_, ?_⟩
  · rw [← parseArguments_eq_none strtoul argv]
    unfold mainRun
    cases parseArguments strtoul argv with
    | none => simp
    | some cfg => simp
  · rintro p a2 t rfl
    simp [mainRun, parseArguments]
  · rintro p a1 an t rfl
    simp [mainRun, parseArguments]
  · rintro p ak a1 an a2 t rfl
    simp [mainRun, parseArguments]

/-- C18 on two argument vectors: `gshare` with four arguments is rejected,
`bimodal 2 trace.txt` is accepted and run with `m2 = 2`. -/
theorem mainRun_dispatch_witness :
    mainRun decimalValue ["sim_bp", "gshare", "4", "trace.txt"] [] = .failure ∧
    mainRun decimalValue ["sim_bp", "bimodal", "2", "trace.txt"] []
      = .ran (simulate (.bimodal 2) []) ∧
    (mainRun decimalValue ["sim_bp", "bimodal", "2", "trace.txt"] [] = .failure ↔
      ¬ ((["sim_bp", "bimodal", "2", "trace.txt"].length = 4 ∧
          ["sim_bp", "bimodal", "2", "trace.txt"][1]? = some "bimodal") ∨
        (["sim_bp", "bimodal", "2", "trace.txt"].length = 5 ∧
          ["sim_bp", "bimodal", "2", "trace.txt"][1]? = some "gshare") ∨
        (["sim_bp", "bimodal", "2", "trace.txt"].length = 7 ∧
          ["sim_bp", "bimodal", "2", "trace.txt"][1]? = some "hybrid"))) :=
  ⟨by decide, by decide,
    (mainRun_dispatch decimalValue ["sim_bp", "bimodal", "2", "trace.txt"] []).1⟩

/-- C18 as stated fails on the arguments `gshare 2 5 trace.txt`, where
`n = 5 > m1 = 2`: the dispatch accepts them, the run does not end with the
failure of the dispatch, and the set-up builds the gshare table of 4
counters. -/
theorem mainRun_accepts_wide_history_counterexample :
    parseArguments decimalValue ["sim_bp", "gshare", "2", "5", "trace.txt"]
      = some (.gshare 2 5) ∧
    (2 : Nat) < 5 ∧
    mainRun decimalValue ["sim_bp", "gshare", "2", "5", "trace.txt"] [] ≠ .failure ∧
    mainSetup (.gshare 2 5) = some { globals0 with
      isGshare := true, m1 := 2, n := 5, numGshareEntries := 4,
      gshareTable := [2, 2, 2, 2] } := by
  refine ⟨by decide, by decide, by decide, by decide⟩

/-! ## What the loop body leaves unchanged -/

theorem sameShape_refl (s : Sim) : SameShape s s :=
  ⟨rfl, rfl, rfl, rfl, rfl, rfl, rfl, rfl, rfl, rfl, rfl, rfl, rfl⟩

theorem sameShape_trans {s s1 s2 : Sim} (h1 : SameShape s s1) (h2 : SameShape s1 s2) :
    SameShape s s2 := by
  obtain ⟨a1, a2, a3, a4, a5, a6, a7, a8, a9, a10, a11, a12, a13⟩ := h1
  obtain ⟨b1, b2, b3, b4, b5, b6, b7, b8, b9, b10, b11, b12, b13⟩ := h2
  exact ⟨b1.trans a1, b2.trans a2, b3.trans a3, b4.trans a4, b5.trans a5, b6.trans a6,
    b7.trans a7, b8.trans a8, b9.trans a9, b10.trans a10, b11.trans a11, b12.trans a12,
    b13.trans a13⟩

theorem updatePredictor_length {table t : List Int} {index : Int} {outcome : Bool}
    (h : updatePredictor table index outcome = some t) : t.length = table.length := by
  cases hr : readAt table index with
  | none =>
    unfold updatePredictor at h
    rw [hr] at h
    cases h
  | some old =>
    rw [updatePredictor_eq table index outcome old hr] at h
    injection h with h
    subst h
    cases outcome <;> simp only [Bool.false_eq_true, if_false, if_true] <;> split <;>
      simp [List.length_set]

/-- The chooser table keeps its length through `updateChooser`. -/
theorem updateChooser_length {s s1 : Sim} {index : Int} {gc bc : Bool}
    (h : updateChooser s index gc bc = some s1) :
    s1.chooserTable.length = s.chooserTable.length := by
  unfold updateChooser at h
  by_cases h1 : (gc && !bc) = true
  · rw [if_pos h1] at h
    simp only [Option.bind_eq_bind, Option.bind_eq_some] at h
    obtain ⟨c, -, h⟩ := h
    by_cases h3 : c < 3
    · rw [if_pos h3] at h
      simp only [Option.bind_eq_some] at h
      obtain ⟨t, ht, h⟩ := h
      injection h with h
      subst h
      unfold writeAt at ht
      split at ht
      · injection ht with ht
        subst ht
        exact List.length_set _ _ _
      · cases ht
    · rw [if_neg h3] at h
      injection h with h
      subst h
      rfl
  · rw [if_neg h1] at h
    by_cases h2 : (bc && !gc) = true
    · rw [if_pos h2] at h
      simp only [Option.bind_eq_bind, Option.bind_eq_some] at h
      obtain ⟨c, -, h⟩ := h
      by_cases h0 : c > 0
      · rw [if_pos h0] at h
        simp only [Option.bind_eq_some] at h
        obtain ⟨t, ht, h⟩ := h
        injection h with h
        subst h
        unfold writeAt at ht
        split at ht
        · injection ht with ht
          subst ht
          exact List.length_set _ _ _
        · cases ht
      · rw [if_neg h0] at h
        injection h with h
        subst h
        rfl
    · rw [if_neg h2] at h
      injection h with h
      subst h
      rfl

/-- The chooser table keeps its length through the hybrid branch. -/
theorem hybridRecord_chooser_length {s s1 : Sim} {addr : Nat} {actualOutcome : Bool}
    (h : hybridRecord s addr actualOutcome = some s1) :
    s1.chooserTable.length = s.chooserTable.length := by
  unfold hybridRecord at h
  simp only [Option.bind_eq_bind, Option.bind_eq_some] at h
  obtain ⟨bi, -, gi, -, ci, -, bp, -, gp, -, c, -, sm, hsm, c2, -, hrest⟩ := h
  have hsm2 := countMisprediction_eq_some hsm
  subst hsm2
  by_cases h2 : c2 ≥ 2
  · simp only [h2, if_true, Option.bind_eq_some, Option.some_bind] at hrest
    obtain ⟨tg, -, sh, hsh, hs1⟩ := hrest
    obtain ⟨g, hg⟩ := updateGlobalHistoryRegister_eq_some hsh
    subst hg
    have hlen := updateChooser_length hs1
    exact hlen
  · simp only [h2, if_false, Option.bind_eq_some, Option.some_bind] at hrest
    obtain ⟨tb, -, sh, hsh, hs1⟩ := hrest
    obtain ⟨g, hg⟩ := updateGlobalHistoryRegister_eq_some hsh
    subst hg
    have hlen := updateChooser_length hs1
    exact hlen

/-- The loop body changes neither a parameter nor a mode flag nor the length
of a table; it adds 1 to `predictions` and at most 1 to `mispredictions`. -/
theorem processRecord_frame {s s1 : Sim} {r : Record} (h : processRecord s r = some s1) :
    SameShape s s1 ∧ s1.predictions = s.predictions + 1 ∧ s1.predictions ≤ INT_MAX ∧
      s.mispredictions ≤ s1.mispredictions ∧ s1.mispredictions ≤ s.mispredictions + 1 := by
  obtain ⟨sb, hsb, rfl, hmax⟩ := processRecord_eq_some h
  by_cases h1 : s.isBimodal = true
  · rw [if_pos h1] at hsb
    obtain ⟨bi, bp, t, -, -, ht, rfl⟩ := bimodalRecord_eq_some hsb
    refine ⟨⟨rfl, rfl, rfl, rfl, rfl, rfl, rfl, rfl, rfl, rfl, updatePredictor_length ht,
      rfl, rfl⟩, rfl, hmax, ?_, ?_⟩
    · show s.mispredictions ≤ s.mispredictions + _
      split <;> omega
    · show s.mispredictions + _ ≤ s.mispredictions + 1
      split <;> omega
  · rw [if_neg h1] at hsb
    by_cases h2 : s.isGshare = true
    · rw [if_pos h2] at hsb
      obtain ⟨gi, gp, t, g, -, -, ht, -, rfl⟩ := gshareRecord_eq_some hsb
      refine ⟨⟨rfl, rfl, rfl, rfl, rfl, rfl, rfl, rfl, rfl, rfl, rfl,
        updatePredictor_length ht, rfl⟩, rfl, hmax, ?_, ?_⟩
      · show s.mispredictions ≤ s.mispredictions + _
        split <;> omega
      · show s.mispredictions + _ ≤ s.mispredictions + 1
        split <;> omega
    · rw [if_neg h2] at hsb
      by_cases h3 : s.isHybrid = true
      · rw [if_pos h3] at hsb
        have hlen := hybridRecord_chooser_length hsb
        obtain ⟨bi, gi, ci, bp, gp, c, tb, tg, g, tc, -, -, -, -, -, -, hge, hlt, -, rfl⟩ :=
          hybridRecord_eq_some hsb
        have hlb : tb.length = s.bimodalTable.length := by
          by_cases h2c : 2 ≤ c
          · rw [(hge h2c).2]
          · exact updatePredictor_length (hlt (by omega)).1
        have hlg : tg.length = s.gshareTable.length := by
          by_cases h2c : 2 ≤ c
          · exact updatePredictor_length (hge h2c).1
          · rw [(hlt (by omega)).2]
        refine ⟨⟨rfl, rfl, rfl, rfl, rfl, rfl, rfl, rfl, rfl, rfl, hlb, hlg, hlen⟩, rfl,
          hmax, ?_, ?_⟩
        · show s.mispredictions ≤ s.mispredictions + _
          split <;> omega
        · show s.mispredictions + _ ≤ s.mispredictions + 1
          split <;> omega
      · rw [if_neg h3] at hsb
        injection hsb with hsb
        subst hsb
        refine ⟨sameShape_refl _, rfl, hmax, le_refl _, ?_⟩
        show s.mispredictions ≤ s.mispredictions + 1
        omega

/-- The loop changes neither a parameter nor a mode flag nor the length of a
table; it adds the number of records to `predictions`. -/
theorem mainLoop_frame (trace : List Record) (s s1 : Sim) (h : mainLoop s trace = some s1) :
    SameShape s s1 ∧ s1.predictions = s.predictions + trace.length ∧
      s.mispredictions ≤ s1.mispredictions ∧
      s1.mispredictions ≤ s.mispredictions + trace.length ∧
      (trace ≠ [] → s1.predictions ≤ INT_MAX) := by
  induction trace generalizing s with
  | nil =>
    simp only [mainLoop] at h
    injection h with h
    subst h
    exact ⟨sameShape_refl _, by simp, le_refl _, by simp, fun h => absurd rfl h⟩
  | cons r rest ih =>
    simp only [mainLoop, Option.bind_eq_some] at h
    obtain ⟨s2, hs2, hrest⟩ := h
    obtain ⟨hshape, hpred, hmax, hm0, hm1⟩ := processRecord_frame hs2
    obtain ⟨hshape2, hpred2, hm2, hm3, hmax2⟩ := ih s2 hrest
    refine ⟨sameShape_trans hshape hshape2, ?_, by omega, ?_, ?_⟩
    · rw [hpred2, hpred, List.length_cons]
      push_cast
      omega
    · rw [List.length_cons]
      push_cast
      omega
    · intro _
      by_cases hr : rest = []
      · subst hr
        simp only [mainLoop] at hrest
        injection hrest with hrest
        subst hrest
        exact hmax
      · exact hmax2 hr

/-! ## The loop is defined on every state of a valid run -/

theorem bimodalShape_of_sameShape {s s1 : Sim} {m2 : Nat} (h : SameShape s s1)
    (hs : BimodalShape s m2) : BimodalShape s1 m2 := by
  obtain ⟨-, -, e3, -, e5, -, -, -, -, -, e11, -, -⟩ := h
  obtain ⟨a, b, c, d⟩ := hs
  exact ⟨a, e3.trans b, e5.trans c, e11.trans d⟩

theorem gshareShape_of_sameShape {s s1 : Sim} {m1 n : Nat} (h : SameShape s s1)
    (hs : GshareShape s m1 n) : GshareShape s1 m1 n := by
  obtain ⟨e1, e2, -, -, -, -, -, -, -, -, -, e12, -⟩ := h
  obtain ⟨a, b, c, d, e, f⟩ := hs
  exact ⟨a, b, c, e1.trans d, e2.trans e, e12.trans f⟩

theorem chooserShape_of_sameShape {s s1 : Sim} {k : Nat} (h : SameShape s s1)
    (hs : ChooserShape s k) : ChooserShape s1 k := by
  obtain ⟨-, -, -, e4, -, -, -, -, -, -, -, -, e13⟩ := h
  obtain ⟨a, b, c⟩ := hs
  exact ⟨a, e4.trans b, e13.trans c⟩

theorem modeShape_of_sameShape {s s1 : Sim} (h : SameShape s s1) (hs : ModeShape s) :
    ModeShape s1 := by
  have hflags := h
  obtain ⟨-, -, -, -, -, -, -, f1, f2, f3, -, -, -⟩ := hflags
  rcases hs with ⟨hb, m2, hm2⟩ | ⟨hb, hg, m1, n, hm1⟩ | ⟨hb, hg, hh, k, m1, n, m2, hm2, hm1, hk⟩
  · exact Or.inl ⟨f1.trans hb, m2, bimodalShape_of_sameShape h hm2⟩
  · exact Or.inr (Or.inl ⟨f1.trans hb, f2.trans hg, m1, n, gshareShape_of_sameShape h hm1⟩)
  · exact Or.inr (Or.inr ⟨f1.trans hb, f2.trans hg, f3.trans hh, k, m1, n, m2,
      bimodalShape_of_sameShape h hm2, gshareShape_of_sameShape h hm1,
      chooserShape_of_sameShape h hk⟩)

/-- In bimodal mode the loop body returns a state when the bimodal table has
the shape of its width and the statistics counters are below `INT_MAX`. -/
theorem processRecord_bimodal_defined (s : Sim) (r : Record) (m2 : Nat)
    (hb : s.isBimodal = true) (hshape : BimodalShape s m2)
    (hmis0 : INT_MIN ≤ s.mispredictions) (hmis1 : s.mispredictions < INT_MAX)
    (hp0 : INT_MIN ≤ s.predictions) (hp1 : s.predictions < INT_MAX) :
    ∃ s1, processRecord s r = some s1 := by
  obtain ⟨hm2, -, hnb, hlb⟩ := hshape
  have hbi := getBimodalIndex_eq s m2 r.addr hnb hm2
  have hrb : InRange s.bimodalTable (((r.addr >>> 2) % 2 ^ m2 : Nat) : Int) :=
    inRange_natCast _ _ (by rw [hlb]; exact Nat.mod_lt _ (Nat.two_pow_pos m2))
  have hreadb := readAt_of_inRange _ _ hrb
  generalize s.bimodalTable.get ⟨_, hrb.2⟩ = cb at hreadb
  obtain ⟨m, hm⟩ := countMisprediction_defined s (decide (cb ≥ 2)) r.actualOutcome hmis0 hmis1
  obtain ⟨tb, htb⟩ := updatePredictor_defined s.bimodalTable _ r.actualOutcome hrb
  have hbr : bimodalRecord s r.addr r.actualOutcome
      = some { s with mispredictions := m, bimodalTable := tb } := by
    unfold bimodalRecord makeBimodalPrediction
    simp only [hbi, hreadb, hm, htb, Option.bind_eq_bind, Option.some_bind]
  unfold processRecord
  simp only [hb, if_true, hbr, Option.some_bind]
  rw [checkInt_of_range _ (by omega) (by omega)]
  exact ⟨_, rfl⟩

/-- In gshare mode the loop body returns a state when the gshare table has the
shape of its width, `1 ≤ n ≤ m1`, and the statistics counters are below
`INT_MAX`. -/
theorem processRecord_gshare_defined (s : Sim) (r : Record) (m1 n : Nat)
    (hb : s.isBimodal = false) (hg : s.isGshare = true) (hshape : GshareShape s m1 n)
    (hmis0 : INT_MIN ≤ s.mispredictions) (hmis1 : s.mispredictions < INT_MAX)
    (hp0 : INT_MIN ≤ s.predictions) (hp1 : s.predictions < INT_MAX) :
    ∃ s1, processRecord s r = some s1 := by
  obtain ⟨h30, hn1, hle, hm1, hn, hlg⟩ := hshape
  obtain ⟨d, rfl⟩ : ∃ d, m1 = d + n := ⟨m1 - n, by omega⟩
  have hgi := getGshareIndex_eq s d n r.addr hm1 hn h30
  have hgilt := gshare_value_lt ((r.addr >>> 2) % 2 ^ (d + n)) s.globalHistoryRegister d n
    (Nat.mod_lt _ (Nat.two_pow_pos _))
  generalize (((r.addr >>> 2) % 2 ^ (d + n)) / 2 ^ d ^^^ s.globalHistoryRegister % 2 ^ n) * 2 ^ d
    + ((r.addr >>> 2) % 2 ^ (d + n)) % 2 ^ d = gi at hgi hgilt
  have hrg : InRange s.gshareTable (gi : Int) :=
    inRange_natCast _ _ (by rw [hlg]; exact hgilt)
  have hreadg := readAt_of_inRange _ _ hrg
  generalize s.gshareTable.get ⟨_, hrg.2⟩ = cg at hreadg
  obtain ⟨m, hm⟩ := countMisprediction_defined s (decide (cg ≥ 2)) r.actualOutcome hmis0 hmis1
  obtain ⟨tg, htg⟩ := updatePredictor_defined s.gshareTable gi r.actualOutcome hrg
  have hgr : ∃ sg, gshareRecord s r.addr r.actualOutcome = some sg ∧
      sg.predictions = s.predictions := by
    unfold gshareRecord makeGsharePrediction
    simp only [hgi, hreadg, hm, htg, Option.bind_eq_bind, Option.some_bind]
    rw [updateGlobalHistoryRegister_eq _ n r.actualOutcome _ hn1 (by omega)]
    · exact ⟨_, rfl, rfl⟩
    · exact hn
  obtain ⟨sg, hsg, hpred⟩ := hgr
  unfold processRecord
  simp only [hb, hg, Bool.false_eq_true, if_false, if_true, hsg, Option.some_bind]
  rw [hpred, checkInt_of_range _ (by omega) (by omega)]
  exact ⟨_, rfl⟩

/-- The loop body returns a state on every state that has the shape of its
mode and whose statistics counters are ordered and below `INT_MAX`: no shift,
overflow or table access of the loop body is undefined there. -/
theorem processRecord_defined (s : Sim) (r : Record) (hs : ModeShape s)
    (hc : CountersOrdered s) (hp : s.predictions < INT_MAX) :
    ∃ s1, processRecord s r = some s1 := by
  obtain ⟨hc0, hc1⟩ := hc
  have hmin : INT_MIN ≤ 0 := by decide
  rcases hs with ⟨hb, m2, hm2⟩ | ⟨hb, hg, m1, n, hm1⟩ | ⟨hb, hg, hh, k, m1, n, m2, hm2, hm1, hk⟩
  · exact processRecord_bimodal_defined s r m2 hb hm2 (by omega) (by omega) (by omega) hp
  · exact processRecord_gshare_defined s r m1 n hb hg hm1 (by omega) (by omega) (by omega) hp
  · obtain ⟨a1, -, a3, a4⟩ := hm2
    obtain ⟨b1, b2, b3, b4, b5, b6⟩ := hm1
    obtain ⟨c1, c2, c3⟩ := hk
    exact processRecord_hybrid_defined s r k m1 n m2 hb hg hh
      ⟨c2, b4, b5, a3, c1, b2, b3, b1, a1, a4, b6, c3, by omega, by omega, by omega, hp⟩

/-- The loop returns a state on every trace that does not take `predictions`
beyond `INT_MAX`. -/
theorem mainLoop_defined (trace : List Record) (s : Sim) (hs : ModeShape s)
    (hc : CountersOrdered s) (hp : s.predictions + trace.length ≤ INT_MAX) :
    ∃ s1, mainLoop s trace = some s1 := by
  induction trace generalizing s with
  | nil => exact ⟨s, rfl⟩
  | cons r rest ih =>
    rw [List.length_cons] at hp
    push_cast at hp
    obtain ⟨s2, hs2⟩ := processRecord_defined s r hs hc (by omega)
    obtain ⟨hshape, hpred, -, hm0, hm1⟩ := processRecord_frame hs2
    have hc2 : CountersOrdered s2 := by
      obtain ⟨hc0, hc1⟩ := hc
      exact ⟨by omega, by omega⟩
    obtain ⟨s3, hs3⟩ := ih s2 (modeShape_of_sameShape hshape hs) hc2 (by omega)
    exact ⟨s3, by simp only [mainLoop, hs2, Option.some_bind, hs3]⟩

/-- The set-up returns a state of the mode's shape, with both statistics
counters 0, on every valid configuration. -/
theorem mainSetup_defined (cfg : Config) (hv : ValidConfig cfg) :
    ∃ s0, mainSetup cfg = some s0 ∧ ModeShape s0 ∧ s0.predictions = 0 ∧
      s0.mispredictions = 0 := by
  cases cfg with
  | bimodal m2 =>
    have h2 : m2 ≤ 30 := hv
    exact ⟨_, mainSetup_bimodal m2 h2,
      Or.inl ⟨rfl, m2, h2, rfl, rfl, List.length_replicate _ _⟩, rfl, rfl⟩
  | gshare m1 n =>
    obtain ⟨hn1, hle, h1⟩ : 1 ≤ n ∧ n ≤ m1 ∧ m1 ≤ 30 := hv
    exact ⟨_, mainSetup_gshare m1 n h1,
      Or.inr (Or.inl ⟨rfl, rfl, m1, n, h1, hn1, hle, rfl, toInt_natCast n (by omega),
        List.length_replicate _ _⟩), rfl, rfl⟩
  | hybrid k m1 n m2 =>
    obtain ⟨hk, hn1, hle, h1, h2⟩ : k ≤ 30 ∧ 1 ≤ n ∧ n ≤ m1 ∧ m1 ≤ 30 ∧ m2 ≤ 30 := hv
    exact ⟨_, mainSetup_hybrid k m1 n m2 hk h1 h2,
      Or.inr (Or.inr ⟨rfl, rfl, rfl, k, m1, n, m2,
        ⟨h2, rfl, rfl, List.length_replicate _ _⟩,
        ⟨h1, hn1, hle, rfl, toInt_natCast n (by omega), List.length_replicate _ _⟩,
        ⟨hk, rfl, List.length_replicate _ _⟩⟩), rfl, rfl⟩

/-- A run on a valid configuration and a trace of at most `INT_MAX` records
returns a final state. -/
theorem simulate_defined (cfg : Config) (trace : List Record) (hv : ValidConfig cfg)
    (hlen : (trace.length : Int) ≤ INT_MAX) : ∃ s, simulate cfg trace = some s := by
  obtain ⟨s0, hs0, hshape, hp, hm⟩ := mainSetup_defined cfg hv
  obtain ⟨s, hs⟩ := mainLoop_defined trace s0 hshape ⟨by omega, by omega⟩ (by omega)
  exact ⟨s, by simp only [simulate, hs0, Option.some_bind, hs]⟩

/-! ## C15: `predictions` counts the records -/

/-- The set-up leaves both statistics counters and the history register at
0. -/
theorem mainSetup_counters (cfg : Config) (s0 : Sim) (h : mainSetup cfg = some s0) :
    s0.predictions = 0 ∧ s0.mispredictions = 0 ∧ s0.globalHistoryRegister = 0 := by
  cases cfg with
  | bimodal a2 =>
    simp only [mainSetup, Option.bind_eq_bind, Option.bind_eq_some] at h
    obtain ⟨nb, _, bt, _, h⟩ := h
    injection h with h
    subst h
    exact ⟨rfl, rfl, rfl⟩
  | gshare a1 an =>
    simp only [mainSetup, Option.bind_eq_bind, Option.bind_eq_some] at h
    obtain ⟨ng, _, gt, _, h⟩ := h
    injection h with h
    subst h
    exact ⟨rfl, rfl, rfl⟩
  | hybrid ak a1 an a2 =>
    simp only [mainSetup, Option.bind_eq_bind, Option.bind_eq_some] at h
    obtain ⟨nb, _, ng, _, nc, _, bt, _, gt, _, ct, _, h⟩ := h
    injection h with h
    subst h
    exact ⟨rfl, rfl, rfl⟩

/-- C15. For every mode, every configuration and every trace: the loop body
adds exactly 1 to `predictions` on every record it processes, whatever the
mode flags are; a run that processes the `L` records of the trace from the
state of the set-up ends with `predictions = L`; and on a valid configuration
a trace of at most `INT_MAX` records is processed to its end. -/
theorem predictions_count (cfg : Config) (trace : List Record) :
    (∀ s r s1, processRecord s r = some s1 → s1.predictions = s.predictions + 1) ∧
    (∀ s0 s, mainSetup cfg = some s0 → mainLoop s0 trace = some s →
      s.predictions = (trace.length : Int)) ∧
    (ValidConfig cfg → (trace.length : Int) ≤ INT_MAX →
      ∃ s, simulate cfg trace = some s ∧ s.predictions = (trace.length : Int)) := by
  have hrun : ∀ s0 s, mainSetup cfg = some s0 → mainLoop s0 trace = some s →
      s.predictions = (trace.length : Int) := by
    intro s0 s hs0 hs
    have h0 := (mainSetup_counters cfg s0 hs0).1
    have h1 := (mainLoop_frame trace s0 s hs).2.1
    rw [h1, h0, Int.zero_add]
  refine ⟨fun s r s1 h => (processRecord_frame h).2.1, hrun, ?_⟩
  intro hv hlen
  obtain ⟨s, hs⟩ := simulate_defined cfg trace hv hlen
  refine ⟨s, hs, ?_⟩
  unfold simulate at hs
  simp only [Option.bind_eq_some] at hs
  obtain ⟨s0, hs0, hloop⟩ := hs
  exact hrun s0 s hs0 hloop

/-- C15 on the hybrid configuration `k = 1, m1 = 2, n = 1, m2 = 1` and a trace
of four records: the run ends with `predictions = 4`. -/
theorem predictions_count_witness :
    simulate (.hybrid 1 2 1 1) [⟨4, false⟩, ⟨4, false⟩, ⟨4, false⟩, ⟨12, true⟩]
      = some { hybridExample with
          chooserTable := [1, 1], predictions := 4, mispredictions := 2,
          globalHistoryRegister := 1 } ∧
    ValidConfig (.hybrid 1 2 1 1) ∧
    (4 : Int) = (([⟨4, false⟩, ⟨4, false⟩, ⟨4, false⟩, ⟨12, true⟩] : List Record).length : Int) ∧
    ∃ s, simulate (.hybrid 1 2 1 1) [⟨4, false⟩, ⟨4, false⟩, ⟨4, false⟩, ⟨12, true⟩] = some s ∧
      s.predictions
        = (([⟨4, false⟩, ⟨4, false⟩, ⟨4, false⟩, ⟨12, true⟩] : List Record).length : Int) :=
  have hv : ValidConfig (.hybrid 1 2 1 1) := by
    show 1 ≤ 30 ∧ 1 ≤ 1 ∧ 1 ≤ 2 ∧ 2 ≤ 30 ∧ 1 ≤ 30
    decide
  ⟨by decide, hv,
    (predictions_count (.hybrid 1 2 1 1)
      [⟨4, false⟩, ⟨4, false⟩, ⟨4, false⟩, ⟨12, true⟩]).2.1
      { hybridExample with bimodalTable := [2, 2], chooserTable := [1, 1] }
      { hybridExample with
          chooserTable := [1, 1], predictions := 4, mispredictions := 2,
          globalHistoryRegister := 1 }
      (by decide) (by decide),
    (predictions_count (.hybrid 1 2 1 1)
      [⟨4, false⟩, ⟨4, false⟩, ⟨4, false⟩, ⟨12, true⟩]).2.2 hv (by decide)⟩

/-! ## C19: every index of the loop body addresses an entry of its table -/

/-- When `1 << w` is computed and a vector of that size is built, the width
`w` is at most 30 and the vector has `2^w` entries. -/
theorem shl_mkTable_eq_some {w nb v : Int} {t : List Int} (h1 : shlInt 1 w = some nb)
    (h2 : mkTable nb v = some t) :
    ∃ m : Nat, m ≤ 30 ∧ w = (m : Int) ∧ nb = ((2 ^ m : Nat) : Int) ∧
      t = List.replicate (2 ^ m) v := by
  unfold shlInt at h1
  split at h1
  · rename_i hw
    injection h1 with h1
    obtain ⟨m, rfl⟩ : ∃ m : Nat, w = (m : Int) := ⟨w.toNat, by omega⟩
    rw [Int.toNat_ofNat, one_mul] at h1
    have hm31 : m ≤ 31 := by omega
    by_cases hm : m ≤ 30
    · have hc : ((2 : Int) ^ m) = ((2 ^ m : Nat) : Int) := by push_cast; rfl
      have hp := two_pow_le_of_le_30 m hm
      rw [hc, toInt_natCast _ (by omega)] at h1
      subst h1
      rw [mkTable_natCast] at h2
      injection h2 with h2
      exact ⟨m, hm, rfl, rfl, h2.symm⟩
    · have h31 : m = 31 := by omega
      subst h31
      have hneg : toInt ((2 : Int) ^ 31) = -2147483648 := by decide
      rw [hneg] at h1
      subst h1
      have hnone : mkTable (-2147483648) v = none := by
        unfold mkTable
        rw [if_neg (by decide)]
      rw [hnone] at h2
      cases h2
  · cases h1

/-- The state the set-up returns has the shape of its mode, provided the
history width fits the gshare index in the modes that use it. -/
theorem mainSetup_modeShape (cfg : Config) (s0 : Sim) (h : mainSetup cfg = some s0)
    (hfit : HistoryFits s0) : ModeShape s0 := by
  cases cfg with
  | bimodal a2 =>
    simp only [mainSetup, Option.bind_eq_bind, Option.bind_eq_some] at h
    obtain ⟨nb, hnb, bt, hbt, h⟩ := h
    injection h with h
    subst h
    obtain ⟨m, hm, hw, rfl, rfl⟩ := shl_mkTable_eq_some hnb hbt
    exact Or.inl ⟨rfl, m, hm, hw, rfl, List.length_replicate _ _⟩
  | gshare a1 an =>
    simp only [mainSetup, Option.bind_eq_bind, Option.bind_eq_some] at h
    obtain ⟨ng, hng, gt, hgt, h⟩ := h
    injection h with h
    subst h
    obtain ⟨m, hm, hw, rfl, rfl⟩ := shl_mkTable_eq_some hng hgt
    rcases hfit with hb | ⟨hn1, hle⟩
    · cases hb
    · have hn1' : 1 ≤ toInt (an : Int) := hn1
      have hle' : toInt (an : Int) ≤ toInt (a1 : Int) := hle
      have hw' : toInt (a1 : Int) = (m : Int) := hw
      exact Or.inr (Or.inl ⟨rfl, rfl, m, (toInt (an : Int)).toNat, hm, by omega, by omega, hw,
        by show toInt (an : Int) = _; omega, List.length_replicate _ _⟩)
  | hybrid ak a1 an a2 =>
    simp only [mainSetup, Option.bind_eq_bind, Option.bind_eq_some] at h
    obtain ⟨nb, hnb, ng, hng, nc, hnc, bt, hbt, gt, hgt, ct, hct, h⟩ := h
    injection h with h
    subst h
    obtain ⟨m2, hm2, hw2, rfl, rfl⟩ := shl_mkTable_eq_some hnb hbt
    obtain ⟨m1, hm1, hw1, rfl, rfl⟩ := shl_mkTable_eq_some hng hgt
    obtain ⟨k, hk, hwk, rfl, rfl⟩ := shl_mkTable_eq_some hnc hct
    rcases hfit with hb | ⟨hn1, hle⟩
    · cases hb
    · have hn1' : 1 ≤ toInt (an : Int) := hn1
      have hle' : toInt (an : Int) ≤ toInt (a1 : Int) := hle
      have hw' : toInt (a1 : Int) = (m1 : Int) := hw1
      exact Or.inr (Or.inr ⟨rfl, rfl, rfl, k, m1, (toInt (an : Int)).toNat, m2,
        ⟨hm2, hw2, rfl, List.length_replicate _ _⟩,
        ⟨hm1, by omega, by omega, hw1, by show toInt (an : Int) = _; omega,
          List.length_replicate _ _⟩,
        ⟨hk, hwk, List.length_replicate _ _⟩⟩)

/-- The bimodal index of a state with a bimodal table of shape `m2`. -/
theorem bimodalIndex_inRange (s : Sim) (m2 addr : Nat) (hs : BimodalShape s m2) :
    ∃ i : Nat, getBimodalIndex s addr = some (i : Int) ∧ i < 2 ^ s.m2.toNat ∧
      s.bimodalTable.length = 2 ^ s.m2.toNat := by
  obtain ⟨hm, hw, hnb, hlen⟩ := hs
  rw [hw, Int.toNat_ofNat]
  exact ⟨_, getBimodalIndex_eq s m2 addr hnb hm, Nat.mod_lt _ (Nat.two_pow_pos m2), hlen⟩

/-- The gshare index of a state with a gshare table of shape `m1`, `n`, for
any value of the history register. -/
theorem gshareIndex_inRange (s : Sim) (m1 n addr h : Nat) (hs : GshareShape s m1 n) :
    ∃ i : Nat, getGshareIndex { s with globalHistoryRegister := h } addr = some (i : Int) ∧
      i < 2 ^ s.m1.toNat ∧ s.gshareTable.length = 2 ^ s.m1.toNat := by
  obtain ⟨h30, hn1, hle, hm1, hn, hlen⟩ := hs
  have e : s.m1.toNat = m1 := by rw [hm1, Int.toNat_ofNat]
  rw [e]
  obtain ⟨d, rfl⟩ : ∃ d, m1 = d + n := ⟨m1 - n, by omega⟩
  exact ⟨_, getGshareIndex_eq { s with globalHistoryRegister := h } d n addr hm1 hn h30,
    gshare_value_lt _ h d n (Nat.mod_lt _ (Nat.two_pow_pos _)), hlen⟩

/-- The chooser index of a state with a chooser table of shape `k`. -/
theorem chooserIndex_inRange (s : Sim) (k addr : Nat) (hs : ChooserShape s k) :
    getChooserIndex s addr = some (((addr >>> 2) % 2 ^ s.k.toNat : Nat) : Int) ∧
      (addr >>> 2) % 2 ^ s.k.toNat < 2 ^ s.k.toNat ∧
      s.chooserTable.length = 2 ^ s.k.toNat := by
  obtain ⟨hk, hw, hlen⟩ := hs
  rw [hw, Int.toNat_ofNat]
  exact ⟨getChooserIndex_eq s k addr hw hk, Nat.mod_lt _ (Nat.two_pow_pos k), hlen⟩

/-- C19. For every configuration whose set-up returns an initial state with
`1 ≤ n ≤ m1` (in the modes that use the history register), every trace and
every state the loop reaches from that initial state: the three tables have
the lengths the set-up gave them; the bimodal index of any address, computed
in bimodal and hybrid mode, is below `2^m2`, the length of the bimodal table;
the gshare index, computed in gshare and hybrid mode, is below `2^m1`, the
length of the gshare table, for any value of the history register; the chooser
index, computed in hybrid mode, is `(addr >> 2) mod 2^k`, below `2^k`, the
length of the chooser table; and the loop body returns a state for every
record as long as `predictions` is below `INT_MAX`, so none of its table
accesses is out of bounds. -/
theorem indices_in_range (cfg : Config) (trace : List Record) (s0 s : Sim) (addr h : Nat)
    (hsetup : mainSetup cfg = some s0) (hfit : HistoryFits s0)
    (hrun : mainLoop s0 trace = some s) :
    (s.bimodalTable.length = s0.bimodalTable.length ∧
      s.gshareTable.length = s0.gshareTable.length ∧
      s.chooserTable.length = s0.chooserTable.length) ∧
    (InBimodalMode s ∨ InHybridMode s →
      ∃ i : Nat, getBimodalIndex s addr = some (i : Int) ∧ i < 2 ^ s.m2.toNat ∧
        s.bimodalTable.length = 2 ^ s.m2.toNat) ∧
    (InGshareMode s ∨ InHybridMode s →
      ∃ i : Nat, getGshareIndex { s with globalHistoryRegister := h } addr = some (i : Int) ∧
        i < 2 ^ s.m1.toNat ∧ s.gshareTable.length = 2 ^ s.m1.toNat) ∧
    (InHybridMode s →
      getChooserIndex s addr = some (((addr >>> 2) % 2 ^ s.k.toNat : Nat) : Int) ∧
        (addr >>> 2) % 2 ^ s.k.toNat < 2 ^ s.k.toNat ∧
        s.chooserTable.length = 2 ^ s.k.toNat) ∧
    (s.predictions < INT_MAX → ∀ r, ∃ s1, processRecord s r = some s1) := by
  obtain ⟨hshape, hpred, hm0, hm1, -⟩ := mainLoop_frame trace s0 s hrun
  obtain ⟨hp0, hmis0, -⟩ := mainSetup_counters cfg s0 hsetup
  have hmode : ModeShape s :=
    modeShape_of_sameShape hshape (mainSetup_modeShape cfg s0 hsetup hfit)
  have hlens := hshape
  obtain ⟨-, -, -, -, -, -, -, -, -, -, l1, l2, l3⟩ := hlens
  refine ⟨⟨l1, l2, l3⟩, ?_, ?_, ?_, ?_⟩
  · intro hm
    rcases hmode with ⟨hb, m2, hm2⟩ | ⟨hb, hg, m1, n, hm1⟩ |
      ⟨hb, hg, hh, k, m1, n, m2, hm2, hm1, hk⟩
    · exact bimodalIndex_inRange s m2 addr hm2
    · rcases hm with hm | ⟨hb2, hg2, -⟩
      · rw [hm] at hb
        cases hb
      · rw [hg2] at hg
        cases hg
    · exact bimodalIndex_inRange s m2 addr hm2
  · intro hm
    rcases hmode with ⟨hb, m2, hm2⟩ | ⟨hb, hg, m1, n, hm1⟩ |
      ⟨hb, hg, hh, k, m1, n, m2, hm2, hm1, hk⟩
    · rcases hm with ⟨hb2, -⟩ | ⟨hb2, -, -⟩
      · rw [hb2] at hb
        cases hb
      · rw [hb2] at hb
        cases hb
    · exact gshareIndex_inRange s m1 n addr h hm1
    · exact gshareIndex_inRange s m1 n addr h hm1
  · rintro ⟨hb2, hg2, hh2⟩
    rcases hmode with ⟨hb, m2, hm2⟩ | ⟨hb, hg, m1, n, hm1⟩ |
      ⟨hb, hg, hh, k, m1, n, m2, hm2, hm1, hk⟩
    · rw [hb2] at hb
      cases hb
    · rw [hg2] at hg
      cases hg
    · exact chooserIndex_inRange s k addr hk
  · intro hp r
    exact processRecord_defined s r hmode ⟨by omega, by omega⟩ hp

/-- C19 on the hybrid configuration `k = 1, m1 = 2, n = 1, m2 = 1`, the state
reached after four records, the address `0x1C` and the history register value
3: the bimodal, gshare and chooser indices are all 1, inside tables of 2, 4
and 2 counters. -/
theorem indices_in_range_witness :
    mainSetup (.hybrid 1 2 1 1)
      = some { hybridExample with bimodalTable := [2, 2], chooserTable := [1, 1] } ∧
    HistoryFits { hybridExample with bimodalTable := [2, 2], chooserTable := [1, 1] } ∧
    mainLoop { hybridExample with bimodalTable := [2, 2], chooserTable := [1, 1] }
        [⟨4, false⟩, ⟨4, false⟩, ⟨4, false⟩, ⟨12, true⟩]
      = some { hybridExample with
          chooserTable := [1, 1], predictions := 4, mispredictions := 2,
          globalHistoryRegister := 1 } ∧
    InHybridMode { hybridExample with
      chooserTable := [1, 1], predictions := 4, mispredictions := 2,
      globalHistoryRegister := 1 } ∧
    (∃ i : Nat, getBimodalIndex { hybridExample with
          chooserTable := [1, 1], predictions := 4, mispredictions := 2,
          globalHistoryRegister := 1 } 28 = some (i : Int) ∧ i < 2 ^ (1 : Int).toNat ∧
        [(2 : Int), 1].length = 2 ^ (1 : Int).toNat) ∧
    (∃ i : Nat, getGshareIndex { ({ hybridExample with
          chooserTable := [1, 1], predictions := 4, mispredictions := 2,
          globalHistoryRegister := 1 } : Sim) with globalHistoryRegister := 3 } 28
        = some (i : Int) ∧ i < 2 ^ (2 : Int).toNat ∧
        [(2 : Int), 2, 2, 2].length = 2 ^ (2 : Int).toNat) :=
  have hfit : HistoryFits { hybridExample with bimodalTable := [2, 2], chooserTable := [1, 1] } :=
    Or.inr ⟨by decide, by decide⟩
  have hmode : InHybridMode { hybridExample with
      chooserTable := [1, 1], predictions := 4, mispredictions := 2,
      globalHistoryRegister := 1 } := ⟨rfl, rfl, rfl⟩
  have hall := indices_in_range (.hybrid 1 2 1 1)
    [⟨4, false⟩, ⟨4, false⟩, ⟨4, false⟩, ⟨12, true⟩]
    { hybridExample with bimodalTable := [2, 2], chooserTable := [1, 1] }
    { hybridExample with
      chooserTable := [1, 1], predictions := 4, mispredictions := 2,
      globalHistoryRegister := 1 }
    28 3 (by decide) hfit (by decide)
  ⟨by decide, hfit, by decide, hmode, hall.2.1 (Or.inr hmode), hall.2.2.1 (Or.inr hmode)⟩

/-! ## C20: a trace of taken branches is never mispredicted -/

theorem allTaken_nil : AllTaken [] := by
  intro c h
  cases h

theorem mkTable_allTaken {num : Int} {t : List Int} (h : mkTable num 2 = some t) :
    AllTaken t := by
  unfold mkTable at h
  split at h
  · injection h with h
    subst h
    intro c hc
    rw [List.eq_of_mem_replicate hc]
  · cases h

/-- A taken outcome keeps every counter of the table at 2 or above. -/
theorem updatePredictor_allTaken {table t : List Int} {index : Int}
    (ht : AllTaken table) (h : updatePredictor table index true = some t) : AllTaken t := by
  cases hr : readAt table index with
  | none =>
    unfold updatePredictor at h
    rw [hr] at h
    cases h
  | some old =>
    have hold := ht old (readAt_mem hr)
    rw [updatePredictor_eq table index true old hr] at h
    injection h with h
    subst h
    simp only [if_true]
    split
    · intro c hc
      rcases List.mem_or_eq_of_mem_set hc with hc | hc
      · exact ht c hc
      · omega
    · exact ht

theorem makeBimodalPrediction_allTaken {s : Sim} {index : Int} {p : Bool}
    (ht : AllTaken s.bimodalTable) (h : makeBimodalPrediction s index = some p) : p = true := by
  unfold makeBimodalPrediction at h
  simp only [Option.bind_eq_bind, Option.bind_eq_some] at h
  obtain ⟨c, hc, h⟩ := h
  injection h with h
  rw [← h]
  exact decide_eq_true (ht c (readAt_mem hc))

theorem makeGsharePrediction_allTaken {s : Sim} {index : Int} {p : Bool}
    (ht : AllTaken s.gshareTable) (h : makeGsharePrediction s index = some p) : p = true := by
  unfold makeGsharePrediction at h
  simp only [Option.bind_eq_bind, Option.bind_eq_some] at h
  obtain ⟨c, hc, h⟩ := h
  injection h with h
  rw [← h]
  exact decide_eq_true (ht c (readAt_mem hc))

/-- On a record with a taken outcome the loop body leaves `mispredictions` as
it is and keeps every counter of the two predictor tables at 2 or above. -/
theorem processRecord_allTaken {s s1 : Sim} {r : Record} (h : processRecord s r = some s1)
    (hr : r.actualOutcome = true)
    (hb : AllTaken s.bimodalTable) (hg : AllTaken s.gshareTable) :
    s1.mispredictions = s.mispredictions ∧ AllTaken s1.bimodalTable ∧
      AllTaken s1.gshareTable := by
  obtain ⟨sb, hsb, rfl, -⟩ := processRecord_eq_some h
  rw [hr] at hsb
  show sb.mispredictions = s.mispredictions ∧ AllTaken sb.bimodalTable ∧
    AllTaken sb.gshareTable
  by_cases h1 : s.isBimodal = true
  · rw [if_pos h1] at hsb
    obtain ⟨bi, bp, t, -, hbp, ht, rfl⟩ := bimodalRecord_eq_some hsb
    have hp := makeBimodalPrediction_allTaken hb hbp
    subst hp
    exact ⟨by simp, updatePredictor_allTaken hb ht, hg⟩
  · rw [if_neg h1] at hsb
    by_cases h2 : s.isGshare = true
    · rw [if_pos h2] at hsb
      obtain ⟨gi, gp, t, g, -, hgp, ht, -, rfl⟩ := gshareRecord_eq_some hsb
      have hp := makeGsharePrediction_allTaken hg hgp
      subst hp
      exact ⟨by simp, hb, updatePredictor_allTaken hg ht⟩
    · rw [if_neg h2] at hsb
      by_cases h3 : s.isHybrid = true
      · rw [if_pos h3] at hsb
        obtain ⟨bi, gi, ci, bp, gp, c, tb, tg, g, tc, -, -, -, hbp, hgp, -, hge, hlt, -, rfl⟩ :=
          hybridRecord_eq_some hsb
        have hpb := makeBimodalPrediction_allTaken hb hbp
        have hpg := makeGsharePrediction_allTaken hg hgp
        subst hpb hpg
        refine ⟨by simp, ?_, ?_⟩
        · by_cases h2c : 2 ≤ c
          · show AllTaken tb
            rw [(hge h2c).2]
            exact hb
          · exact updatePredictor_allTaken hb (hlt (by omega)).1
        · by_cases h2c : 2 ≤ c
          · exact updatePredictor_allTaken hg (hge h2c).1
          · show AllTaken tg
            rw [(hlt (by omega)).2]
            exact hg
      · rw [if_neg h3] at hsb
        injection hsb with hsb
        subst hsb
        exact ⟨rfl, hb, hg⟩

theorem mainLoop_allTaken (trace : List Record) (s s1 : Sim) (h : mainLoop s trace = some s1)
    (htaken : ∀ r ∈ trace, r.actualOutcome = true)
    (hb : AllTaken s.bimodalTable) (hg : AllTaken s.gshareTable) :
    s1.mispredictions = s.mispredictions ∧ AllTaken s1.bimodalTable ∧
      AllTaken s1.gshareTable := by
  induction trace generalizing s with
  | nil =>
    simp only [mainLoop] at h
    injection h with h
    subst h
    exact ⟨rfl, hb, hg⟩
  | cons r rest ih =>
    simp only [mainLoop, Option.bind_eq_some] at h
    obtain ⟨s2, hs2, hrest⟩ := h
    obtain ⟨hm, hb2, hg2⟩ :=
      processRecord_allTaken hs2 (htaken r (List.mem_cons_self r rest)) hb hg
    obtain ⟨hm3, hb3, hg3⟩ :=
      ih s2 hrest (fun x hx => htaken x (List.mem_cons_of_mem r hx)) hb2 hg2
    exact ⟨hm3.trans hm, hb3, hg3⟩

theorem mainSetup_allTaken (cfg : Config) (s0 : Sim) (h : mainSetup cfg = some s0) :
    AllTaken s0.bimodalTable ∧ AllTaken s0.gshareTable := by
  cases cfg with
  | bimodal a2 =>
    simp only [mainSetup, Option.bind_eq_bind, Option.bind_eq_some] at h
    obtain ⟨nb, _, bt, hbt, h⟩ := h
    injection h with h
    subst h
    exact ⟨mkTable_allTaken hbt, allTaken_nil⟩
  | gshare a1 an =>
    simp only [mainSetup, Option.bind_eq_bind, Option.bind_eq_some] at h
    obtain ⟨ng, _, gt, hgt, h⟩ := h
    injection h with h
    subst h
    exact ⟨allTaken_nil, mkTable_allTaken hgt⟩
  | hybrid ak a1 an a2 =>
    simp only [mainSetup, Option.bind_eq_bind, Option.bind_eq_some] at h
    obtain ⟨nb, _, ng, _, nc, _, bt, hbt, gt, hgt, ct, _, h⟩ := h
    injection h with h
    subst h
    exact ⟨mkTable_allTaken hbt, mkTable_allTaken hgt⟩

/-- C20. For every mode, every configuration and every trace in which every
outcome is taken: a run that processes the trace from the state of the set-up
ends with `mispredictions = 0` and with every counter of the bimodal and of
the gshare table at 2 or above (so both sub-predictors predict taken,
whichever the chooser trusts); and on a valid configuration a trace of at most
`INT_MAX` records is processed to its end, with `mispredictions = 0`. -/
theorem all_taken_never_mispredicts (cfg : Config) (trace : List Record)
    (htaken : ∀ r ∈ trace, r.actualOutcome = true) :
    (∀ s0 s, mainSetup cfg = some s0 → mainLoop s0 trace = some s →
      s.mispredictions = 0 ∧ AllTaken s.bimodalTable ∧ AllTaken s.gshareTable) ∧
    (ValidConfig cfg → (trace.length : Int) ≤ INT_MAX →
      ∃ s, simulate cfg trace = some s ∧ s.mispredictions = 0) := by
  have hrun : ∀ s0 s, mainSetup cfg = some s0 → mainLoop s0 trace = some s →
      s.mispredictions = 0 ∧ AllTaken s.bimodalTable ∧ AllTaken s.gshareTable := by
    intro s0 s hs0 hs
    obtain ⟨hb, hg⟩ := mainSetup_allTaken cfg s0 hs0
    obtain ⟨hm, hb1, hg1⟩ := mainLoop_allTaken trace s0 s hs htaken hb hg
    exact ⟨hm.trans (mainSetup_counters cfg s0 hs0).2.1, hb1, hg1⟩
  refine ⟨hrun, ?_⟩
  intro hv hlen
  obtain ⟨s, hs⟩ := simulate_defined cfg trace hv hlen
  refine ⟨s, hs, ?_⟩
  unfold simulate at hs
  simp only [Option.bind_eq_some] at hs
  obtain ⟨s0, hs0, hloop⟩ := hs
  exact (hrun s0 s hs0 hloop).1

/-- C20 on the gshare configuration `m1 = 2, n = 2` and three taken records:
the history register fills up, the counters at the indices 0 and 2 go up to 3
(the second one saturates there), and the run ends with
`mispredictions = 0`. -/
theorem all_taken_never_mispredicts_witness :
    (∀ r ∈ ([⟨0, true⟩, ⟨0, true⟩, ⟨4, true⟩] : List Record), r.actualOutcome = true) ∧
    simulate (.gshare 2 2) [⟨0, true⟩, ⟨0, true⟩, ⟨4, true⟩]
      = some { globals0 with
          isGshare := true, m1 := 2, n := 2, numGshareEntries := 4,
          gshareTable := [3, 2, 3, 2], predictions := 3,
          globalHistoryRegister := 3 } ∧
    ValidConfig (.gshare 2 2) ∧
    ∃ s, simulate (.gshare 2 2) [⟨0, true⟩, ⟨0, true⟩, ⟨4, true⟩] = some s ∧
      s.mispredictions = 0 :=
  have htaken : ∀ r ∈ ([⟨0, true⟩, ⟨0, true⟩, ⟨4, true⟩] : List Record),
      r.actualOutcome = true := by
    intro r hr
    simp only [List.mem_cons, List.mem_singleton, List.not_mem_nil, or_false] at hr
    rcases hr with h | h | h <;> rw [h]
  have hv : ValidConfig (.gshare 2 2) := by
    show 1 ≤ 2 ∧ 2 ≤ 2 ∧ 2 ≤ 30
    decide
  ⟨htaken, by decide, hv,
    (all_taken_never_mispredicts (.gshare 2 2) [⟨0, true⟩, ⟨0, true⟩, ⟨4, true⟩] htaken).2
      hv (by decide)⟩

/-! ## C5: the hybrid branch updates exactly one sub-predictor table -/

/-- C5. For every state in hybrid mode and every record, with `c` the chooser
counter read in the state before the record: whenever the loop body returns a
state, then for `c ≥ 2` the gshare table after the record is `updatePredictor`
applied to the gshare table at the gshare index and the bimodal table is
identical to the one before the record, and for `c < 2` the bimodal table
after the record is `updatePredictor` applied to the bimodal table at the
bimodal index and the gshare table is identical to the one before the record;
and on every state that has the shape of its mode, with ordered statistics
counters and `predictions` below `INT_MAX`, the loop body does return such a
state, in both cases of the chooser counter. -/
theorem hybrid_updates_one_table (s : Sim) (r : Record) (hb : s.isBimodal = false)
    (hg : s.isGshare = false) (hh : s.isHybrid = true) :
    (∀ s1, processRecord s r = some s1 →
      ∃ bi gi ci c, getBimodalIndex s r.addr = some bi ∧ getGshareIndex s r.addr = some gi ∧
        getChooserIndex s r.addr = some ci ∧ readAt s.chooserTable ci = some c ∧
        (2 ≤ c → updatePredictor s.gshareTable gi r.actualOutcome = some s1.gshareTable ∧
          s1.bimodalTable = s.bimodalTable) ∧
        (c < 2 → updatePredictor s.bimodalTable bi r.actualOutcome = some s1.bimodalTable ∧
          s1.gshareTable = s.gshareTable)) ∧
    (ModeShape s → CountersOrdered s → s.predictions < INT_MAX →
      ∃ s1 bi gi ci c, processRecord s r = some s1 ∧
        getBimodalIndex s r.addr = some bi ∧ getGshareIndex s r.addr = some gi ∧
        getChooserIndex s r.addr = some ci ∧ readAt s.chooserTable ci = some c ∧
        (2 ≤ c → updatePredictor s.gshareTable gi r.actualOutcome = some s1.gshareTable ∧
          s1.bimodalTable = s.bimodalTable) ∧
        (c < 2 → updatePredictor s.bimodalTable bi r.actualOutcome = some s1.bimodalTable ∧
          s1.gshareTable = s.gshareTable)) := by
  refine ⟨fun s1 hstep => hybridStep_tables hb hg hh hstep, ?_⟩
  intro hshape hcount hpred
  obtain ⟨s1, hstep⟩ := processRecord_defined s r hshape hcount hpred
  obtain ⟨bi, gi, ci, c, h1, h2, h3, h4, h5, h6⟩ := hybridStep_tables hb hg hh hstep
  exact ⟨s1, bi, gi, ci, c, hstep, h1, h2, h3, h4, h5, h6⟩

/-- C5 on `hybridExample` with two records.  For `(0x0, taken)` the chooser
counter at index 0 is 1: the bimodal table is updated at index 0 and the
gshare table is left as it was.  For `(0x4, not taken)` the chooser counter at
index 1 is 2: the gshare table is updated at index 1 and the bimodal table is
left as it was. -/
theorem hybrid_updates_one_table_witness :
    processRecord hybridExample ⟨0, true⟩
      = some { hybridExample with
          bimodalTable := [3, 1], globalHistoryRegister := 1, predictions := 1 } ∧
    processRecord hybridExample ⟨4, false⟩
      = some { hybridExample with
          gshareTable := [2, 1, 2, 2], mispredictions := 1, predictions := 1,
          chooserTable := [1, 1] } ∧
    ModeShape hybridExample ∧ CountersOrdered hybridExample ∧
    (∃ s1 bi gi ci c, processRecord hybridExample ⟨0, true⟩ = some s1 ∧
      getBimodalIndex hybridExample 0 = some bi ∧ getGshareIndex hybridExample 0 = some gi ∧
      getChooserIndex hybridExample 0 = some ci ∧
      readAt hybridExample.chooserTable ci = some c ∧
      (2 ≤ c → updatePredictor hybridExample.gshareTable gi true = some s1.gshareTable ∧
        s1.bimodalTable = hybridExample.bimodalTable) ∧
      (c < 2 → updatePredictor hybridExample.bimodalTable bi true = some s1.bimodalTable ∧
        s1.gshareTable = hybridExample.gshareTable)) ∧
    (∃ s1 bi gi ci c, processRecord hybridExample ⟨4, false⟩ = some s1 ∧
      getBimodalIndex hybridExample 4 = some bi ∧ getGshareIndex hybridExample 4 = some gi ∧
      getChooserIndex hybridExample 4 = some ci ∧
      readAt hybridExample.chooserTable ci = some c ∧
      (2 ≤ c → updatePredictor hybridExample.gshareTable gi false = some s1.gshareTable ∧
        s1.bimodalTable = hybridExample.bimodalTable) ∧
      (c < 2 → updatePredictor hybridExample.bimodalTable bi false = some s1.bimodalTable ∧
        s1.gshareTable = hybridExample.gshareTable)) :=
  have hshape : ModeShape hybridExample :=
    Or.inr (Or.inr ⟨rfl, rfl, rfl, 1, 2, 1, 1,
      ⟨by decide, by decide, by decide, by decide⟩,
      ⟨by decide, by decide, by decide, by decide, by decide, by decide⟩,
      ⟨by decide, by decide, by decide⟩⟩)
  have hcount : CountersOrdered hybridExample := ⟨by decide, by decide⟩
  ⟨by decide, by decide, hshape, hcount,
    (hybrid_updates_one_table hybridExample ⟨0, true⟩ (by decide) (by decide) (by decide)).2
      hshape hcount (by decide),
    (hybrid_updates_one_table hybridExample ⟨4, false⟩ (by decide) (by decide) (by decide)).2
      hshape hcount (by decide)⟩

/-! ## C7: the hybrid prediction and the misprediction counter -/

/-- C7. For every state in hybrid mode and every record, with `c` the chooser
counter at the chooser index: whenever the loop body returns a state, the
final prediction is the gshare prediction when `c ≥ 2` and the bimodal
prediction otherwise, and `mispredictions` has grown by exactly 1 when that
prediction differs from the actual outcome and is unchanged when it agrees;
and on every state that has the shape of its mode, with ordered statistics
counters and `predictions` below `INT_MAX`, the loop body does return such a
state, for a right and for a wrong final prediction alike. -/
theorem hybrid_prediction (s : Sim) (r : Record) (hb : s.isBimodal = false)
    (hg : s.isGshare = false) (hh : s.isHybrid = true) :
    (∀ s1, processRecord s r = some s1 →
      ∃ bi gi ci bp gp c, getBimodalIndex s r.addr = some bi ∧
        getGshareIndex s r.addr = some gi ∧ getChooserIndex s r.addr = some ci ∧
        makeBimodalPrediction s bi = some bp ∧ makeGsharePrediction s gi = some gp ∧
        readAt s.chooserTable ci = some c ∧
        s1.mispredictions = s.mispredictions
          + (if (if 2 ≤ c then gp else bp) = r.actualOutcome then 0 else 1)) ∧
    (ModeShape s → CountersOrdered s → s.predictions < INT_MAX →
      ∃ s1 bi gi ci bp gp c, processRecord s r = some s1 ∧
        getBimodalIndex s r.addr = some bi ∧
        getGshareIndex s r.addr = some gi ∧ getChooserIndex s r.addr = some ci ∧
        makeBimodalPrediction s bi = some bp ∧ makeGsharePrediction s gi = some gp ∧
        readAt s.chooserTable ci = some c ∧
        s1.mispredictions = s.mispredictions
          + (if (if 2 ≤ c then gp else bp) = r.actualOutcome then 0 else 1)) := by
  refine ⟨fun s1 hstep => hybridStep_mispredictions hb hg hh hstep, ?_⟩
  intro hshape hcount hpred
  obtain ⟨s1, hstep⟩ := processRecord_defined s r hshape hcount hpred
  obtain ⟨bi, gi, ci, bp, gp, c, h1, h2, h3, h4, h5, h6, h7⟩ :=
    hybridStep_mispredictions hb hg hh hstep
  exact ⟨s1, bi, gi, ci, bp, gp, c, hstep, h1, h2, h3, h4, h5, h6, h7⟩

/-- C7 on `hybridExample` with two records at the address `0x4`, where the
chooser counter is 2, so that the gshare prediction (counter 2, taken) is the
final one although the bimodal one (counter 1) is not taken.  For the outcome
not taken the final prediction is wrong and `mispredictions` goes from 0 to 1;
for the outcome taken it is right and `mispredictions` stays 0. -/
theorem hybrid_prediction_witness :
    processRecord hybridExample ⟨4, false⟩
      = some { hybridExample with
          gshareTable := [2, 1, 2, 2], mispredictions := 1, predictions := 1,
          chooserTable := [1, 1] } ∧
    processRecord hybridExample ⟨4, true⟩
      = some { hybridExample with
          gshareTable := [2, 3, 2, 2], globalHistoryRegister := 1, predictions := 1,
          chooserTable := [1, 3] } ∧
    makeBimodalPrediction hybridExample 1 = some false ∧
    makeGsharePrediction hybridExample 1 = some true ∧
    ModeShape hybridExample ∧ CountersOrdered hybridExample ∧
    (∃ s1 bi gi ci bp gp c, processRecord hybridExample ⟨4, false⟩ = some s1 ∧
      getBimodalIndex hybridExample 4 = some bi ∧
      getGshareIndex hybridExample 4 = some gi ∧ getChooserIndex hybridExample 4 = some ci ∧
      makeBimodalPrediction hybridExample bi = some bp ∧
      makeGsharePrediction hybridExample gi = some gp ∧
      readAt hybridExample.chooserTable ci = some c ∧
      s1.mispredictions = hybridExample.mispredictions
        + (if (if 2 ≤ c then gp else bp) = false then 0 else 1)) ∧
    (∃ s1 bi gi ci bp gp c, processRecord hybridExample ⟨4, true⟩ = some s1 ∧
      getBimodalIndex hybridExample 4 = some bi ∧
      getGshareIndex hybridExample 4 = some gi ∧ getChooserIndex hybridExample 4 = some ci ∧
      makeBimodalPrediction hybridExample bi = some bp ∧
      makeGsharePrediction hybridExample gi = some gp ∧
      readAt hybridExample.chooserTable ci = some c ∧
      s1.mispredictions = hybridExample.mispredictions
        + (if (if 2 ≤ c then gp else bp) = true then 0 else 1)) :=
  have hshape : ModeShape hybridExample :=
    Or.inr (Or.inr ⟨rfl, rfl, rfl, 1, 2, 1, 1,
      ⟨by decide, by decide, by decide, by decide⟩,
      ⟨by decide, by decide, by decide, by decide, by decide, by decide⟩,
      ⟨by decide, by decide, by decide⟩⟩)
  have hcount : CountersOrdered hybridExample := ⟨by decide, by decide⟩
  ⟨by decide, by decide, by decide, by decide, hshape, hcount,
    (hybrid_prediction hybridExample ⟨4, false⟩ (by decide) (by decide) (by decide)).2
      hshape hcount (by decide),
    (hybrid_prediction hybridExample ⟨4, true⟩ (by decide) (by decide) (by decide)).2
      hshape hcount (by decide)⟩

/-! ## C16: the history register is updated once per gshare or hybrid record -/

/-- C16. For every state and every record: whenever the loop body returns a
state, then in gshare mode and in hybrid mode the history register after the
record is the one a single call of `updateGlobalHistoryRegister` with the
record's actual outcome computes from the state before the record, whatever
the chooser counter is, and in bimodal mode the history register, the gshare
table and the chooser table are unchanged by the record; and on every state
that has the shape of its mode, with ordered statistics counters and
`predictions` below `INT_MAX`, the loop body does return such a state, in each
of the three modes. -/
theorem history_per_record (s : Sim) (r : Record) :
    (∀ s1, processRecord s r = some s1 →
      (s.isBimodal = false → s.isGshare = true ∨ s.isHybrid = true →
        updateGlobalHistoryRegister s r.actualOutcome
          = some { s with globalHistoryRegister := s1.globalHistoryRegister }) ∧
      (s.isBimodal = true →
        s1.globalHistoryRegister = s.globalHistoryRegister ∧
        s1.gshareTable = s.gshareTable ∧ s1.chooserTable = s.chooserTable)) ∧
    (ModeShape s → CountersOrdered s → s.predictions < INT_MAX →
      ∃ s1, processRecord s r = some s1 ∧
        (s.isBimodal = false → s.isGshare = true ∨ s.isHybrid = true →
          updateGlobalHistoryRegister s r.actualOutcome
            = some { s with globalHistoryRegister := s1.globalHistoryRegister }) ∧
        (s.isBimodal = true →
          s1.globalHistoryRegister = s.globalHistoryRegister ∧
          s1.gshareTable = s.gshareTable ∧ s1.chooserTable = s.chooserTable)) := by
  refine ⟨fun s1 hstep => step_history hstep, ?_⟩
  intro hshape hcount hpred
  obtain ⟨s1, hstep⟩ := processRecord_defined s r hshape hcount hpred
  exact ⟨s1, hstep, step_history hstep⟩

/-- C16 on one state of each mode.  On `gshareExample` (history width 2,
register `0b01`) the record `(0x4, taken)` leaves the register at `0b10`, the
value one call of `updateGlobalHistoryRegister` computes.  On `hybridExample`
(history width 1, register 0) the record `(0x4, taken)` leaves it at 1,
likewise.  On `bimodalExample` the record `(0x4, not taken)` changes the
bimodal table only. -/
theorem history_per_record_witness :
    processRecord gshareExample ⟨4, true⟩
      = some { gshareExample with
          gshareTable := [3, 2, 1, 2], globalHistoryRegister := 2, predictions := 1 } ∧
    updateGlobalHistoryRegister gshareExample true
      = some { gshareExample with globalHistoryRegister := 2 } ∧
    processRecord hybridExample ⟨4, true⟩
      = some { hybridExample with
          gshareTable := [2, 3, 2, 2], globalHistoryRegister := 1, predictions := 1,
          chooserTable := [1, 3] } ∧
    updateGlobalHistoryRegister hybridExample true
      = some { hybridExample with globalHistoryRegister := 1 } ∧
    processRecord bimodalExample ⟨4, false⟩
      = some { bimodalExample with bimodalTable := [2, 0], predictions := 1 } ∧
    ModeShape gshareExample ∧ ModeShape hybridExample ∧ ModeShape bimodalExample ∧
    (∃ s1, processRecord gshareExample ⟨4, true⟩ = some s1 ∧
      (gshareExample.isBimodal = false →
        gshareExample.isGshare = true ∨ gshareExample.isHybrid = true →
        updateGlobalHistoryRegister gshareExample true
          = some { gshareExample with globalHistoryRegister := s1.globalHistoryRegister }) ∧
      (gshareExample.isBimodal = true →
        s1.globalHistoryRegister = gshareExample.globalHistoryRegister ∧
        s1.gshareTable = gshareExample.gshareTable ∧
        s1.chooserTable = gshareExample.chooserTable)) ∧
    (∃ s1, processRecord hybridExample ⟨4, true⟩ = some s1 ∧
      (hybridExample.isBimodal = false →
        hybridExample.isGshare = true ∨ hybridExample.isHybrid = true →
        updateGlobalHistoryRegister hybridExample true
          = some { hybridExample with globalHistoryRegister := s1.globalHistoryRegister }) ∧
      (hybridExample.isBimodal = true →
        s1.globalHistoryRegister = hybridExample.globalHistoryRegister ∧
        s1.gshareTable = hybridExample.gshareTable ∧
        s1.chooserTable = hybridExample.chooserTable)) ∧
    (∃ s1, processRecord bimodalExample ⟨4, false⟩ = some s1 ∧
      (bimodalExample.isBimodal = false →
        bimodalExample.isGshare = true ∨ bimodalExample.isHybrid = true →
        updateGlobalHistoryRegister bimodalExample false
          = some { bimodalExample with globalHistoryRegister := s1.globalHistoryRegister }) ∧
      (bimodalExample.isBimodal = true →
        s1.globalHistoryRegister = bimodalExample.globalHistoryRegister ∧
        s1.gshareTable = bimodalExample.gshareTable ∧
        s1.chooserTable = bimodalExample.chooserTable)) :=
  have hgs : ModeShape gshareExample :=
    Or.inr (Or.inl ⟨rfl, rfl, 2, 2,
      ⟨by decide, by decide, by decide, by decide, by decide, by decide⟩⟩)
  have hhy : ModeShape hybridExample :=
    Or.inr (Or.inr ⟨rfl, rfl, rfl, 1, 2, 1, 1,
      ⟨by decide, by decide, by decide, by decide⟩,
      ⟨by decide, by decide, by decide, by decide, by decide, by decide⟩,
      ⟨by decide, by decide, by decide⟩⟩)
  have hbm : ModeShape bimodalExample :=
    Or.inl ⟨rfl, 1, ⟨by decide, by decide, by decide, by decide⟩⟩
  ⟨by decide, by decide, by decide, by decide, by decide, hgs, hhy, hbm,
    (history_per_record gshareExample ⟨4, true⟩).2 hgs ⟨by decide, by decide⟩ (by decide),
    (history_per_record hybridExample ⟨4, true⟩).2 hhy ⟨by decide, by decide⟩ (by decide),
    (history_per_record bimodalExample ⟨4, false⟩).2 hbm ⟨by decide, by decide⟩ (by decide)⟩

end SimBP
